import Mathlib

/-!
Verification development for the kuse_cowork agent backend.

The Rust source under `src-tauri/src` is shallowly embedded: pure logic is
translated to Lean functions; external I/O (HTTP, child processes, the serde
JSON parser/serializer, the Docker daemon, MCP servers) is abstracted into
explicit oracle parameters, so every embedded function is a total computable
Lean definition.  Machine integers (`u32`, `i32`, `i64`) are modelled as
`Nat`/`Int`; the only place an integer bound is semantically relevant is the
`parse::<i32>` calls in the plan/step scanners, where the bound is kept
explicit.
-/

/-- Model of `serde_json::Value`.  Floating-point numbers do not occur in any
property verified here; numeric leaves are modelled as integers. -/
inductive Json where
  | null : Json
  | jbool : Bool → Json
  | jnum : Int → Json
  | jstr : String → Json
  | jarr : List Json → Json
  | jobj : List (String × Json) → Json
  deriving Inhabited

/-- First-match field lookup in an object's field list (objects built by the
embedded code never carry duplicate keys). -/
def lookupField : List (String × Json) → String → Option Json
  | [], _ => none
  | (k, v) :: rest, key => if key = k then some v else lookupField rest key

/-- Model of `Value::get(key)`: field lookup on objects, `None` otherwise. -/
def Json.get : Json → String → Option Json
  | .jobj fields, key => lookupField fields key
  | _, _ => none

/-- Model of `Value::as_str`. -/
def Json.asStr : Json → Option String
  | .jstr s => some s
  | _ => none

/-- Model of `Value::as_array`. -/
def Json.asArr : Json → Option (List Json)
  | .jarr xs => some xs
  | _ => none

/-- Model of `Value::as_i64`. -/
def Json.asInt : Json → Option Int
  | .jnum n => some n
  | _ => none

/-- Model of `Value::as_bool`. -/
def Json.asBool : Json → Option Bool
  | .jbool b => some b
  | _ => none

/-- Upsert a field: replace the value in place when the key exists, append
otherwise (`map[key] = value` semantics of `serde_json` index assignment). -/
def upsertField : List (String × Json) → String → Json → List (String × Json)
  | [], key, v => [(key, v)]
  | (k, w) :: rest, key, v =>
      if k = key then (k, v) :: rest else (k, w) :: upsertField rest key v

/-- Model of `value[key] = v` on a JSON object (the embedded code only ever
indexes into objects). -/
def Json.setKey : Json → String → Json → Json
  | .jobj fields, key, v => .jobj (upsertField fields key v)
  | j, _, _ => j

/-- Whether a JSON object carries the given top-level key. -/
def Json.hasKey (j : Json) (key : String) : Bool := (j.get key).isSome

/-- Model of `str::to_lowercase` (the model names involved are ASCII). -/
def lowerStr (s : String) : String := String.mk (s.toList.map Char.toLower)

/-- Whether `pat` occurs at the head of `l`. -/
def isPrefixL : List Char → List Char → Bool
  | [], _ => true
  | _ :: _, [] => false
  | p :: ps, c :: cs => p = c && isPrefixL ps cs

/-- Whether `pat` occurs anywhere in `l` (model of `str::contains`). -/
def containsL (pat : List Char) : List Char → Bool
  | [] => isPrefixL pat []
  | c :: cs => isPrefixL pat (c :: cs) || containsL pat cs

/-- Model of `str::contains(pat)` for string patterns. -/
def strContains (s pat : String) : Bool := containsL pat.toList s.toList

/-- Model of `str::starts_with(pat)`. -/
def strStartsWith (s pat : String) : Bool := isPrefixL pat.toList s.toList

/-! ## Canonical agent data model (`src-tauri/src/agent/types.rs`) -/

/-- `ToolUse` (types.rs): a tool-use request parsed from the model. -/
structure ToolUse where
  id : String
  name : String
  input : Json
  thought_signature : Option String

/-- `ToolResult` (types.rs): a tool result fed back to the model. -/
structure ToolResult where
  result_type : String
  tool_use_id : String
  content : String
  is_error : Option Bool
  thought_signature : Option String
  deriving DecidableEq, Repr

/-- `ToolResult::success` (types.rs lines 38-46). -/
def ToolResult.success (tool_use_id content : String) : ToolResult :=
  { result_type := "tool_result", tool_use_id := tool_use_id, content := content,
    is_error := none, thought_signature := none }

/-- `ToolResult::error` (types.rs lines 48-56). -/
def ToolResult.error (tool_use_id error : String) : ToolResult :=
  { result_type := "tool_result", tool_use_id := tool_use_id, content := error,
    is_error := some true, thought_signature := none }

/-- `ContentBlock` (types.rs). -/
inductive ContentBlock where
  | text : String → ContentBlock
  | toolUse (id name : String) (input : Json) (thought_signature : Option String) : ContentBlock

/-- `AgentContent` (types.rs). -/
inductive AgentContent where
  | text : String → AgentContent
  | blocks : List ContentBlock → AgentContent
  | toolResults : List ToolResult → AgentContent

/-- `AgentMessage` (types.rs). -/
structure AgentMessage where
  role : String
  content : AgentContent

/-- `PlanStepInfo` (types.rs). -/
structure PlanStepInfo where
  step : Int
  description : String
  deriving DecidableEq, Repr

/-- `AgentEvent` (types.rs): the discriminated union emitted to the front-end. -/
inductive AgentEvent where
  | text : String → AgentEvent
  | plan : List PlanStepInfo → AgentEvent
  | stepStart : Int → AgentEvent
  | stepDone : Int → AgentEvent
  | toolStart (tool : String) (input : Json) : AgentEvent
  | toolEnd (tool result : String) (success : Bool) : AgentEvent
  | turnComplete : Nat → AgentEvent
  | done (total_turns : Nat) : AgentEvent
  | error (message : String) : AgentEvent

/-- Whether an event is terminal (`Done` or `Error`). -/
def AgentEvent.isTerminal : AgentEvent → Bool
  | .done _ => true
  | .error _ => true
  | _ => false

/-- Whether an event is a `TurnComplete`. -/
def AgentEvent.isTurnComplete : AgentEvent → Bool
  | .turnComplete _ => true
  | _ => false

/-! ## Step-marker scan (`agent_loop.rs`, `emit_step_markers`, lines 985-1005) -/

/-- Rust regex `\s` (the ASCII range; the texts involved are ASCII). -/
def isRegexWs (c : Char) : Bool :=
  c = ' ' || c = '\t' || c = '\n' || c = '\r' || c = '\x0b' || c = '\x0c'

/-- Numeric value of a digit run. -/
def digitsVal (ds : List Char) : Nat :=
  ds.foldl (fun a c => a * 10 + (c.toNat - '0'.toNat)) 0

/-- Split a maximal leading digit run (`\d+` consumption). -/
def takeDigitsL : List Char → List Char × List Char
  | [] => ([], [])
  | c :: cs =>
      if c.isDigit then
        let (d, r) := takeDigitsL cs
        (c :: d, r)
      else ([], c :: cs)

/-- The value `i32::MAX`, the bound of the `parse::<i32>()` calls. -/
def i32Max : Nat := 2147483647

/-- Continuation of the marker match after the literal `[STEP`:
`\s*(\d+)\s*<word>\]`. -/
def markerAfterStep (word : List Char) (rest : List Char) : Option Nat :=
  match takeDigitsL (rest.dropWhile isRegexWs) with
  | ([], _) => none
  | (d :: dt, rest2) =>
      if isPrefixL (word ++ [']']) (rest2.dropWhile isRegexWs) then
        some (digitsVal (d :: dt))
      else none

/-- Attempt to match `\[STEP\s*(\d+)\s*<word>\]` at the head of `cs`
(`word` is `START` or `DONE`); returns the captured number.  The regex is
case-sensitive on `STEP` and on the closing word. -/
def markerNumAt (word : List Char) (cs : List Char) : Option Nat :=
  match cs with
  | '[' :: 'S' :: 'T' :: 'E' :: 'P' :: rest => markerAfterStep word rest
  | _ => none

/-- All `\[STEP\s*(\d+)\s*<word>\]` captures of a text, left to right, with the
`parse::<i32>` bound applied (an overflowing number is skipped).  No match can
begin strictly inside another match (a match contains no interior `[`), so
advancing one character at a time agrees with `captures_iter`. -/
def scanMarkers (word : List Char) : List Char → List Nat
  | [] => []
  | c :: cs =>
      match markerNumAt word (c :: cs) with
      | some n => if n ≤ i32Max then n :: scanMarkers word cs else scanMarkers word cs
      | none => scanMarkers word cs

/-- `AgentLoop::emit_step_markers` (agent_loop.rs lines 985-1005): one full scan
for `START` markers, then one full scan for `DONE` markers; each hit sends the
corresponding event. -/
def emit_step_markers (text : String) : List AgentEvent :=
  (scanMarkers "START".toList text.toList).map (fun n => AgentEvent.stepStart (Int.ofNat n)) ++
  (scanMarkers "DONE".toList text.toList).map (fun n => AgentEvent.stepDone (Int.ofNat n))

/-! ## Plan parsing (`agent_loop.rs`, `parse_plan`, lines 956-982) -/

/-- Suffix of `l` following the first occurrence of `pat` (`none` when `pat`
does not occur). -/
def splitAtSub (pat : List Char) : List Char → Option (List Char)
  | [] => if pat.isEmpty then some [] else none
  | c :: cs =>
      if isPrefixL pat (c :: cs) then some (List.drop pat.length (c :: cs))
      else splitAtSub pat cs

/-- Prefix of `l` up to (excluding) the first occurrence of `pat`. -/
def takeUntilSub (pat : List Char) : List Char → Option (List Char)
  | [] => if pat.isEmpty then some [] else none
  | c :: cs =>
      if isPrefixL pat (c :: cs) then some []
      else (takeUntilSub pat cs).map (c :: ·)

/-- Capture of `(?s)<plan>(.*?)</plan>`: the region between the first `<plan>`
and the first `</plan>` after it. -/
def planContent (text : List Char) : Option (List Char) :=
  match splitAtSub "<plan>".toList text with
  | none => none
  | some rest => takeUntilSub "</plan>".toList rest

/-- Behaviour of `\s*(.+)` after the dot of a numbered step: greedily skip
whitespace, then capture at least one non-newline character up to the end of
the line.  When everything that remains is whitespace, leftmost-first
backtracking makes the capture the last whitespace character that is not a
newline.  Returns the capture and the suffix after the match. -/
def descAfterDot (rest : List Char) : Option (List Char × List Char) :=
  match rest.dropWhile isRegexWs with
  | c :: t =>
      -- `c` is not whitespace, in particular not a newline.
      some (c :: t.takeWhile (· ≠ '\n'), t.dropWhile (· ≠ '\n'))
  | [] =>
      match rest.reverse.dropWhile (· = '\n') with
      | [] => none
      | c :: _ => some ([c], (rest.reverse.takeWhile (· = '\n')).reverse)

/-- Attempt to match `(\d+)\.\s*(.+)` at the head of `cs`; returns the number
value, the description capture and the suffix after the match. -/
def stepMatchAt (cs : List Char) : Option (Nat × List Char × List Char) :=
  match takeDigitsL cs with
  | ([], _) => none
  | (ds, r1) =>
      match r1 with
      | '.' :: r2 =>
          match descAfterDot r2 with
          | some (desc, after) => some (digitsVal ds, desc, after)
          | none => none
      | _ => none

/-- All `(\d+)\.\s*(.+)` matches of a plan block, left to right, continuing
after each match (`captures_iter`); a failed position advances one character.
The fuel argument only serves totality: every recursive call strictly shrinks
the character list, so `fuel = l.length` never runs out. -/
def scanStepsFuel : Nat → List Char → List (Nat × List Char)
  | 0, _ => []
  | _, [] => []
  | fuel + 1, c :: cs =>
      match stepMatchAt (c :: cs) with
      | some (n, desc, after) => (n, desc) :: scanStepsFuel fuel after
      | none => scanStepsFuel fuel cs

/-- All numbered-step matches of a plan block. -/
def scanSteps (l : List Char) : List (Nat × List Char) :=
  scanStepsFuel l.length l

/-- Model of `str::trim` (whitespace strip at both ends; the ASCII whitespace
set coincides with the regex class used above). -/
def trimL (cs : List Char) : List Char :=
  ((cs.dropWhile isRegexWs).reverse.dropWhile isRegexWs).reverse

/-- `AgentLoop::parse_plan` (agent_loop.rs lines 956-982): the first
`<plan>…</plan>` region is scanned for numbered lines; numbers overflowing
`i32` are skipped; descriptions are trimmed; an empty step list yields `None`. -/
def parse_plan (text : String) : Option (List PlanStepInfo) :=
  match planContent text.toList with
  | none => none
  | some content =>
      let steps := (scanSteps content).filterMap (fun p =>
        if p.1 ≤ i32Max then
          some { step := Int.ofNat p.1, description := String.mk (trimL p.2) }
        else none)
      if steps.isEmpty then none else some steps

/-! ## Response parsing and the turn loop (`agent_loop.rs`) -/

/-- `AgentLoop::parse_response` (agent_loop.rs lines 908-953): extract the text
parts and tool uses from the canonical `{content: [...]}` response. -/
def parse_response (response : Json) : Except String (String × List ToolUse) :=
  match (response.get "content").bind Json.asArr with
  | none => .error "Invalid response: missing content"
  | some content =>
      let acc := content.foldl (fun (acc : List String × List ToolUse) block =>
        let block_type := ((block.get "type").bind Json.asStr).getD ""
        if block_type = "text" then
          match (block.get "text").bind Json.asStr with
          | some t => (acc.1 ++ [t], acc.2)
          | none => acc
        else if block_type = "tool_use" then
          let id := ((block.get "id").bind Json.asStr).getD ""
          let name := ((block.get "name").bind Json.asStr).getD ""
          let input := (block.get "input").getD (Json.jobj [])
          let thought_signature := (block.get "thought_signature").bind Json.asStr
          (acc.1, acc.2 ++ [⟨id, name, input, thought_signature⟩])
        else acc) ([], [])
      .ok (String.join acc.1, acc.2)

/-- Assistant-message content appended after a turn (agent_loop.rs lines
148-164): plain text when there is no tool call, otherwise the optional text
block followed by all `ToolUse` blocks in dispatch order. -/
def assistantContentOf (text_content : String) (tool_uses : List ToolUse) : AgentContent :=
  if tool_uses.isEmpty then
    .text text_content
  else
    .blocks ((if text_content = "" then [] else [ContentBlock.text text_content]) ++
      tool_uses.map (fun tu => ContentBlock.toolUse tu.id tu.name tu.input tu.thought_signature))

/-- Provider oracle: `MessageBuilder::build_request` composed with
`AgentLoop::send_request`.  Given the canonical history it yields the cumulative
text snapshots streamed as `Text` events by the stream handler (the only events
those handlers emit) and either the final canonical response value or the
transport/API error string returned through `?`. -/
def LlmOracle : Type := List AgentMessage → List String × Except String Json

/-- Loop body of `AgentLoop::run_with_history` (agent_loop.rs lines 101-217),
structured by the number of remaining admissible turns: the iteration with
counter `turn` runs its body exactly when `turn ≤ max_turns`, so `remaining`
equals `max_turns + 1 - turn`.  Returns the emitted event sequence and the
`Result` of the function (`Ok` with the extended history, or the propagated
error). -/
def runAux (exec : ToolUse → ToolResult) (llm : LlmOracle) (max_turns : Nat) :
    Nat → Nat → List AgentMessage → List AgentEvent × Except String (List AgentMessage)
  | 0, _, messages =>
      ([.error ("Reached maximum turns (" ++ toString max_turns ++ ")")], .ok messages)
  | remaining + 1, turn, messages =>
      let (streamed, resp) := llm messages
      let textEvents := streamed.map AgentEvent.text
      match resp with
      | .error e => (textEvents, .error e)
      | .ok response =>
        match parse_response response with
        | .error e => (textEvents, .error e)
        | .ok (text_content, tool_uses) =>
          let planEvents := match parse_plan text_content with
            | some steps => [AgentEvent.plan steps]
            | none => []
          let stepEvents := emit_step_markers text_content
          let finalText := if text_content = "" then [] else [AgentEvent.text text_content]
          let messages1 := messages ++ [⟨"assistant", assistantContentOf text_content tool_uses⟩]
          if tool_uses.isEmpty then
            (textEvents ++ planEvents ++ stepEvents ++ finalText ++ [.done turn], .ok messages1)
          else
            let toolEvents := tool_uses.flatMap (fun tu =>
              [AgentEvent.toolStart tu.name tu.input,
               AgentEvent.toolEnd tu.name (exec tu).content (exec tu).is_error.isNone])
            let results := tool_uses.map exec
            let messages2 := messages1 ++ [⟨"user", AgentContent.toolResults results⟩]
            let next := runAux exec llm max_turns remaining (turn + 1) messages2
            (textEvents ++ planEvents ++ stepEvents ++ finalText ++ toolEvents ++
              [.turnComplete turn] ++ next.1, next.2)

/-- `AgentLoop::run_with_history` (agent_loop.rs lines 101-217): start with
`turn = 1` and `max_turns` admissible iterations. -/
def run_with_history (exec : ToolUse → ToolResult) (llm : LlmOracle) (max_turns : Nat)
    (messages : List AgentMessage) : List AgentEvent × Except String (List AgentMessage) :=
  runAux exec llm max_turns max_turns 1 messages

/-! ## MCP data model (`src-tauri/src/mcp/types.rs`) and tool dispatch -/

/-- `MCPTool` (mcp/types.rs): a discovered tool with its owning server. -/
structure MCPTool where
  server_id : String
  name : String
  description : String
  input_schema : Json

/-- `MCPToolCall` (mcp/types.rs). -/
structure MCPToolCall where
  server_id : String
  tool_name : String
  parameters : Json

/-- `MCPToolResult` (mcp/types.rs). -/
structure MCPToolResult where
  success : Bool
  result : Json
  error : Option String

/-- The `replace("-", "_").replace(":", "_")` safe-name transformation; both
patterns are single characters, so `str::replace` is a character-wise map. -/
def safeName (s : String) : String :=
  String.mk (s.toList.map (fun c => if c = '-' then '_' else if c = ':' then '_' else c))

/-- Wire name `mcp_<safe_server_id>_<safe_tool_name>` reconstructed by the
dispatcher (tool_executor.rs lines 36-38). -/
def mcpToolWireName (t : MCPTool) : String :=
  "mcp_" ++ safeName t.server_id ++ "_" ++ safeName t.name

/-- Environment of `ToolExecutor::execute`: the optional MCP manager is
abstracted as its visible tool registry plus the outcome of
`MCPManager::execute_tool`; the Docker daemon and the built-in filesystem/shell
tools are external I/O, abstracted as their outcomes.  `stringifyJson` stands
for the `serde_json` `Display` used in `mcp_result.result.to_string()`. -/
structure ToolExecEnv where
  allTools : List MCPTool
  execMcpTool : MCPToolCall → MCPToolResult
  mcpAvailable : Bool
  dockerConnect : Except String Unit
  dockerOutcome : Except String String
  builtin : String → Json → Except String String
  stringifyJson : Json → String

/-- `execute_docker_tool` (tools/docker.rs lines 69-98): connect to the
daemon, dispatch on the tool name.  Every return site of the three inner
handlers (`docker_run`, `docker_list`, `docker_images`) is
`ToolResult::success(tool_use.id, …)` or `ToolResult::error(tool_use.id, …)`;
their container interaction is abstracted as a single outcome. -/
def execute_docker_tool (connect : Except String Unit) (outcome : Except String String)
    (tu : ToolUse) : ToolResult :=
  match connect with
  | .error e =>
      ToolResult.error tu.id
        ("Failed to connect to Docker: " ++ e ++ ". Make sure Docker Desktop is running.")
  | .ok _ =>
      if tu.name = "docker_run" || tu.name = "docker_list" || tu.name = "docker_images" then
        match outcome with
        | .ok content => ToolResult.success tu.id content
        | .error e => ToolResult.error tu.id e
      else
        ToolResult.error tu.id ("Unknown docker tool: " ++ tu.name)

/-- `ToolExecutor::execute` (tool_executor.rs lines 24-98). -/
def ToolExecutor.execute (env : ToolExecEnv) (tu : ToolUse) : ToolResult :=
  if strStartsWith tu.name "mcp_" then
    if env.mcpAvailable then
      match env.allTools.find? (fun t => mcpToolWireName t = tu.name) with
      | some t =>
          let mcp_result := env.execMcpTool ⟨t.server_id, t.name, tu.input⟩
          if mcp_result.success then
            ToolResult.success tu.id (env.stringifyJson mcp_result.result)
          else
            ToolResult.error tu.id (mcp_result.error.getD "MCP tool execution failed")
      | none => ToolResult.error tu.id ("MCP tool '" ++ tu.name ++ "' not found")
    else
      ToolResult.error tu.id "MCP manager not available"
  else if strStartsWith tu.name "docker_" then
    execute_docker_tool env.dockerConnect env.dockerOutcome tu
  else
    let result : Except String String :=
      match tu.name with
      | "read_file" | "write_file" | "edit_file" | "bash" | "glob" | "grep"
      | "list_dir" | "create_xlsx_file" => env.builtin tu.name tu.input
      | _ => .error ("Unknown tool: " ++ tu.name)
    match result with
    | .ok content => ToolResult.success tu.id content
    | .error error => ToolResult.error tu.id error

/-- Outcome of `tokio::time::timeout(60s, execute_transport_tool(…))`:
either the timer fired, or the transport call completed with a JSON-RPC
envelope or a transport error. -/
inductive MCPCallOutcome where
  | timeout : MCPCallOutcome
  | completed : Except String Json → MCPCallOutcome

/-- `MCPManager::execute_tool` (mcp/client.rs lines 276-326).  `connected`
models whether `clients.get(server_id)` finds a client; `stringify` is the
`Display` formatting of the envelope's `error` value. -/
def MCPManager.execute_tool (stringify : Json → String) (connected : Bool)
    (server_id : String) (outcome : MCPCallOutcome) : MCPToolResult :=
  if !connected then
    { success := false, result := Json.null,
      error := some ("Server " ++ server_id ++ " not connected") }
  else
    match outcome with
    | .completed (.ok response) =>
        match response.get "error" with
        | some err =>
            { success := false, result := Json.null,
              error := some ("Tool execution error: " ++ stringify err) }
        | none =>
            match response.get "result" with
            | some result => { success := true, result := result, error := none }
            | none =>
                { success := false, result := Json.null,
                  error := some "Invalid response format" }
    | .completed (.error e) =>
        { success := false, result := Json.null,
          error := some ("Tool execution failed: " ++ e) }
    | .timeout =>
        { success := false, result := Json.null,
          error := some "Tool execution timed out after 60 seconds" }

/-! ## Canonical request (`agent/message_builder.rs`) -/

/-- `ToolDefinition` (types.rs lines 5-10). -/
structure ToolDefinition where
  name : String
  description : String
  input_schema : Json

/-- `ApiContent` (message_builder.rs lines 26-31): message content is either a
plain string or a list of dynamic JSON blocks. -/
inductive ApiContent where
  | text : String → ApiContent
  | blocks : List Json → ApiContent

/-- `ApiMessage` (message_builder.rs lines 20-24). -/
structure ApiMessage where
  role : String
  content : ApiContent

/-- `ClaudeApiRequest` (message_builder.rs lines 7-18).  `temperature` is
`Option<f32>` in the source; its value is never inspected by the translation
logic (only its presence), so it is carried as an opaque integer token. -/
structure ClaudeApiRequest where
  model : String
  max_tokens : Nat
  system : String
  messages : List ApiMessage
  tools : List ToolDefinition
  temperature : Option Int
  stream : Bool

/-! ## OpenAI request shaping (`agent_loop.rs`, `convert_to_openai_format`,
lines 304-439; the model-name predicates are the ones of
`llm_client.rs` lines 433-452, inlined verbatim in `agent_loop.rs`
lines 412-425) -/

/-- `LLMClient::is_reasoning_model` (llm_client.rs lines 435-441). -/
def is_reasoning_model (model : String) : Bool :=
  let lower := lowerStr model
  strStartsWith lower "o1" || strStartsWith lower "o3" || strStartsWith lower "gpt-5" ||
  strContains lower "-o1" || strContains lower "-o3" ||
  strContains lower "o1-" || strContains lower "o3-"

/-- `LLMClient::is_legacy_openai_model` (llm_client.rs lines 449-452). -/
def is_legacy_openai_model (model : String) : Bool :=
  let lower := lowerStr model
  strContains lower "gpt-3.5" ||
  (strContains lower "gpt-4" && !strContains lower "gpt-4o" && !strContains lower "gpt-4-turbo")

/-- The 'tool_calls' entry built for a `tool_use` block (agent_loop.rs lines
346-355); `stringify` is `serde_json::to_string`. -/
def openaiToolCallJson (stringify : Json → String) (block : Json) : Json :=
  Json.jobj [("id", (block.get "id").getD Json.null),
             ("type", Json.jstr "function"),
             ("function", Json.jobj [
               ("name", (block.get "name").getD Json.null),
               ("arguments", Json.jstr (stringify ((block.get "input").getD (Json.jobj []))))])]

/-- The `role:"tool"` message built for a `tool_result` block (agent_loop.rs
lines 356-363). -/
def openaiToolResultMsg (block : Json) : Json :=
  Json.jobj [("role", Json.jstr "tool"),
             ("tool_call_id", (block.get "tool_use_id").getD Json.null),
             ("content", (block.get "content").getD Json.null)]

/-- Conversion of one canonical message into OpenAI messages (agent_loop.rs
lines 322-391): `tool_result` blocks are pushed as separate `tool` messages
during the block walk; the collected text parts and tool calls form one final
message afterwards. -/
def openaiMsgsOf (stringify : Json → String) (msg : ApiMessage) : List Json :=
  match msg.content with
  | .text t => [Json.jobj [("role", Json.jstr msg.role), ("content", Json.jstr t)]]
  | .blocks blocks =>
      let typeOf := fun (b : Json) => ((b.get "type").bind Json.asStr).getD ""
      let text_parts := blocks.filterMap (fun b =>
        if typeOf b = "text" then (b.get "text").bind Json.asStr else none)
      let tool_calls := blocks.filterMap (fun b =>
        if typeOf b = "tool_use" then some (openaiToolCallJson stringify b) else none)
      let tool_result_msgs := blocks.filterMap (fun b =>
        if typeOf b = "tool_result" then some (openaiToolResultMsg b) else none)
      let final : List Json :=
        if !text_parts.isEmpty then
          let base := Json.jobj [("role", Json.jstr msg.role),
                                 ("content", Json.jstr (String.intercalate "\n" text_parts))]
          if !tool_calls.isEmpty then [base.setKey "tool_calls" (Json.jarr tool_calls)]
          else [base]
        else if !tool_calls.isEmpty then
          [Json.jobj [("role", Json.jstr msg.role), ("content", Json.null),
                      ("tool_calls", Json.jarr tool_calls)]]
        else []
      tool_result_msgs ++ final

/-- `AgentLoop::convert_to_openai_format` (agent_loop.rs lines 304-439). -/
def convert_to_openai_format (stringify : Json → String) (request : ClaudeApiRequest) : Json :=
  let sysMsgs : List Json :=
    if request.system = "" then []
    else [Json.jobj [("role", Json.jstr "system"), ("content", Json.jstr request.system)]]
  let msgs := sysMsgs ++ request.messages.flatMap (openaiMsgsOf stringify)
  let tools := request.tools.map (fun tool =>
    Json.jobj [("type", Json.jstr "function"),
               ("function", Json.jobj [("name", Json.jstr tool.name),
                 ("description", Json.jstr tool.description),
                 ("parameters", tool.input_schema)])])
  let base := Json.jobj [("model", Json.jstr request.model),
                         ("stream", Json.jbool request.stream),
                         ("messages", Json.jarr msgs)]
  let withMax :=
    if is_legacy_openai_model request.model then
      base.setKey "max_tokens" (Json.jnum request.max_tokens)
    else
      base.setKey "max_completion_tokens" (Json.jnum request.max_tokens)
  let withTemp :=
    if !is_reasoning_model request.model then
      match request.temperature with
      | some t => withMax.setKey "temperature" (Json.jnum t)
      | none => withMax
    else withMax
  if !tools.isEmpty then
    (withTemp.setKey "tools" (Json.jarr tools)).setKey "tool_choice" (Json.jstr "auto")
  else withTemp

/-! ## Google request shaping (`agent_loop.rs`, `convert_to_google_format`,
lines 470-596) -/

/-- The `(id, thought_signature)` pairs harvested from all `tool_use` blocks of
the request, in block order (agent_loop.rs lines 477-491). -/
def thoughtSigPairs (messages : List ApiMessage) : List (String × String) :=
  messages.flatMap (fun msg =>
    match msg.content with
    | .blocks blocks => blocks.filterMap (fun b =>
        if (b.get "type").bind Json.asStr = some "tool_use" then
          match (b.get "id").bind Json.asStr, (b.get "thought_signature").bind Json.asStr with
          | some id, some sig => some (id, sig)
          | _, _ => none
        else none)
    | _ => [])

/-- `HashMap::insert`: overwrite the value when the key exists, add the entry
otherwise. -/
def sigInsert : List (String × String) → String → String → List (String × String)
  | [], k, v => [(k, v)]
  | (k', v') :: rest, k, v =>
      if k' = k then (k', v) :: rest else (k', v') :: sigInsert rest k v

/-- `HashMap::get` on the signature map. -/
def sigGet : List (String × String) → String → Option String
  | [], _ => none
  | (k, v) :: rest, key => if key = k then some v else sigGet rest key

/-- The `tool_use_id → thought_signature` map of agent_loop.rs lines 477-491. -/
def sigMapOf (messages : List ApiMessage) : List (String × String) :=
  (thoughtSigPairs messages).foldl (fun m p => sigInsert m p.1 p.2) []

/-- Translation of one content block into a Google `part` (agent_loop.rs lines
507-551); unknown block types and text blocks without a string `text` are
dropped. -/
def googleBlockPart (sigs : List (String × String)) (block : Json) : Option Json :=
  let block_type := ((block.get "type").bind Json.asStr).getD ""
  if block_type = "text" then
    match (block.get "text").bind Json.asStr with
    | some t => some (Json.jobj [("text", Json.jstr t)])
    | none => none
  else if block_type = "tool_use" then
    let fc := Json.jobj [("functionCall", Json.jobj [
        ("name", (block.get "name").getD Json.null),
        ("args", (block.get "input").getD Json.null)])]
    match (block.get "thought_signature").bind Json.asStr with
    | some sig => some (fc.setKey "thoughtSignature" (Json.jstr sig))
    | none => some fc
  else if block_type = "tool_result" then
    let tool_use_id := ((block.get "tool_use_id").bind Json.asStr).getD "unknown"
    let fr := Json.jobj [("functionResponse", Json.jobj [
        ("name", Json.jstr tool_use_id),
        ("response", Json.jobj [("content", (block.get "content").getD Json.null)])])]
    match sigGet sigs tool_use_id with
    | some sig => some (fr.setKey "thoughtSignature" (Json.jstr sig))
    | none => some fr
  else none

/-- The `parts` list of one canonical message (agent_loop.rs lines 501-555). -/
def googleMsgParts (sigs : List (String × String)) (content : ApiContent) : List Json :=
  match content with
  | .text t => [Json.jobj [("text", Json.jstr t)]]
  | .blocks blocks => blocks.filterMap (googleBlockPart sigs)

/-- `AgentLoop::convert_to_google_format` (agent_loop.rs lines 470-596). -/
def convert_to_google_format (request : ClaudeApiRequest) : Json :=
  let sigs := sigMapOf request.messages
  let contents := request.messages.filterMap (fun msg =>
    let role := if msg.role = "assistant" then "model" else msg.role
    let parts := googleMsgParts sigs msg.content
    if parts.isEmpty then none
    else some (Json.jobj [("role", Json.jstr role), ("parts", Json.jarr parts)]))
  let fdecls := request.tools.map (fun tool =>
    Json.jobj [("name", Json.jstr tool.name), ("description", Json.jstr tool.description),
               ("parameters", tool.input_schema)])
  let base := Json.jobj [("contents", Json.jarr contents),
                         ("generationConfig",
                          Json.jobj [("maxOutputTokens", Json.jnum request.max_tokens)])]
  let withSys :=
    if request.system = "" then base
    else base.setKey "systemInstruction"
      (Json.jobj [("parts", Json.jarr [Json.jobj [("text", Json.jstr request.system)]])])
  if fdecls.isEmpty then withSys
  else withSys.setKey "tools" (Json.jarr [Json.jobj [("functionDeclarations", Json.jarr fdecls)]])

/-! ## OpenAI stream handling (`agent_loop.rs`,
`handle_openai_stream_response`, lines 695-793).

The SSE byte stream is modelled as the list of successfully parsed `data:`
JSON payloads in arrival order (`[DONE]` markers, unparsable lines and
partial trailing data carry no information and are skipped by the source).
`parse` is `serde_json::from_str` for the accumulated argument buffers.
`iterKeys` models the unspecified value-iteration order of the
`HashMap<i64, _>` holding the per-index slots: it is an arbitrary function
producing the key order in which `values()` yields the entries. -/

/-- One accumulating slot of `current_tool_calls`: `(id, name, arguments)`. -/
structure OaiSlot where
  id : String
  name : String
  args : String
  deriving DecidableEq, Repr

/-- Application of one `tool_calls` delta fragment to a slot (agent_loop.rs
lines 742-752): `id` and `function.name` overwrite, `function.arguments`
appends. -/
def slotUpdate (tc : Json) (s : OaiSlot) : OaiSlot :=
  let s1 := match (tc.get "id").bind Json.asStr with
    | some id => { s with id := id }
    | none => s
  match tc.get "function" with
  | some func =>
      let s2 := match (func.get "name").bind Json.asStr with
        | some name => { s1 with name := name }
        | none => s1
      match (func.get "arguments").bind Json.asStr with
      | some args => { s2 with args := s2.args ++ args }
      | none => s2
  | none => s1

/-- `entry(index).or_insert(default)` followed by the fragment application. -/
def slotsUpsert (slots : List (Int × OaiSlot)) (idx : Int) (tc : Json) : List (Int × OaiSlot) :=
  match slots with
  | [] => [(idx, slotUpdate tc ⟨"", "", ""⟩)]
  | (k, s) :: rest =>
      if k = idx then (k, slotUpdate tc s) :: rest
      else (k, s) :: slotsUpsert rest idx tc

/-- Lookup of a slot by its index key. -/
def slotsGet : List (Int × OaiSlot) → Int → Option OaiSlot
  | [], _ => none
  | (k, s) :: rest, idx => if k = idx then some s else slotsGet rest idx

/-- Handler state: accumulated text, emitted cumulative `Text` snapshots, the
`current_tool_calls` slot map, and the finalized `tool_calls` list. -/
structure OaiState where
  accText : String
  textEvents : List String
  slots : List (Int × OaiSlot)
  calls : List Json

/-- The canonical `tool_use` value synthesized from a finished slot
(agent_loop.rs lines 762-770). -/
def oaiToolUseJson (parse : String → Option Json) (s : OaiSlot) : Json :=
  Json.jobj [("type", Json.jstr "tool_use"), ("id", Json.jstr s.id),
             ("name", Json.jstr s.name), ("input", (parse s.args).getD (Json.jobj []))]

/-- Finalization on `finish_reason` (agent_loop.rs lines 758-772): iterate the
slot map's values in the map's (unspecified) order, keeping slots with
non-empty id and name. -/
def oaiFinishCalls (parse : String → Option Json) (iterKeys : List Int → List Int)
    (slots : List (Int × OaiSlot)) : List Json :=
  (iterKeys (slots.map Prod.fst)).filterMap (fun k =>
    match slotsGet slots k with
    | some s =>
        if s.id ≠ "" && s.name ≠ "" then some (oaiToolUseJson parse s) else none
    | none => none)

/-- The `index` key of a `tool_calls` delta fragment (`as_i64` defaulting 0). -/
def tcIndex (tc : Json) : Int := ((tc.get "index").bind Json.asInt).getD 0

/-- Processing of one element of `choices` (agent_loop.rs lines 723-772). -/
def oaiChoiceStep (parse : String → Option Json) (iterKeys : List Int → List Int)
    (st : OaiState) (choice : Json) : OaiState :=
  let st1 := match choice.get "delta" with
    | none => st
    | some delta =>
      let stA := match (delta.get "content").bind Json.asStr with
        | some content =>
            let newText := st.accText ++ content
            { st with accText := newText, textEvents := st.textEvents ++ [newText] }
        | none => st
      match (delta.get "tool_calls").bind Json.asArr with
      | some tcs =>
          { stA with slots := tcs.foldl (fun sl tc => slotsUpsert sl (tcIndex tc) tc) stA.slots }
      | none => stA
  if ((choice.get "finish_reason").bind Json.asStr).isSome then
    { st1 with calls := st1.calls ++ oaiFinishCalls parse iterKeys st1.slots }
  else st1

/-- Processing of one parsed `data:` event (agent_loop.rs lines 721-774). -/
def oaiEventStep (parse : String → Option Json) (iterKeys : List Int → List Int)
    (st : OaiState) (event : Json) : OaiState :=
  match (event.get "choices").bind Json.asArr with
  | some choices => choices.foldl (oaiChoiceStep parse iterKeys) st
  | none => st

/-- The state after consuming a whole stream. -/
def oaiRun (parse : String → Option Json) (iterKeys : List Int → List Int)
    (events : List Json) : OaiState :=
  events.foldl (oaiEventStep parse iterKeys) ⟨"", [], [], []⟩

/-- `AgentLoop::handle_openai_stream_response` (agent_loop.rs lines 695-793):
returns the emitted cumulative text snapshots and the Claude-format response
value. -/
def handle_openai_stream_response (parse : String → Option Json)
    (iterKeys : List Int → List Int) (events : List Json) : List String × Json :=
  let st := oaiRun parse iterKeys events
  let content :=
    (if st.accText = "" then []
     else [Json.jobj [("type", Json.jstr "text"), ("text", Json.jstr st.accText)]]) ++ st.calls
  (st.textEvents, Json.jobj [("content", Json.jarr content)])

/-! ## Anthropic stream handling (`agent_loop.rs`, `handle_stream_response`,
lines 795-906).  The stream is modelled as the list of parsed `data:` JSON
events, as for the OpenAI handler. -/

/-- Handler state of the Anthropic SSE state machine. -/
structure AnthState where
  accText : String
  textEvents : List String
  tool_uses : List Json
  current_tool_id : String
  current_tool_name : String
  current_tool_input : String
  full_response : Option Json

/-- Processing of one parsed Anthropic stream event (agent_loop.rs lines
824-899). -/
def anthEventStep (parse : String → Option Json) (st : AnthState) (event : Json) : AnthState :=
  let event_type := ((event.get "type").bind Json.asStr).getD ""
  if event_type = "content_block_start" then
    match event.get "content_block" with
    | some block =>
        if (block.get "type").bind Json.asStr = some "tool_use" then
          { st with current_tool_id := ((block.get "id").bind Json.asStr).getD "",
                    current_tool_name := ((block.get "name").bind Json.asStr).getD "",
                    current_tool_input := "" }
        else st
    | none => st
  else if event_type = "content_block_delta" then
    match event.get "delta" with
    | some delta =>
        let delta_type := ((delta.get "type").bind Json.asStr).getD ""
        if delta_type = "text_delta" then
          match (delta.get "text").bind Json.asStr with
          | some text =>
              let newText := st.accText ++ text
              { st with accText := newText, textEvents := st.textEvents ++ [newText] }
          | none => st
        else if delta_type = "input_json_delta" then
          match (delta.get "partial_json").bind Json.asStr with
          | some p => { st with current_tool_input := st.current_tool_input ++ p }
          | none => st
        else st
    | none => st
  else if event_type = "content_block_stop" then
    if st.current_tool_id = "" then st
    else
      { st with
        tool_uses := st.tool_uses ++ [Json.jobj [("type", Json.jstr "tool_use"),
          ("id", Json.jstr st.current_tool_id), ("name", Json.jstr st.current_tool_name),
          ("input", (parse st.current_tool_input).getD (Json.jobj []))]],
        current_tool_id := "", current_tool_name := "", current_tool_input := "" }
  else if event_type = "message_stop" then
    let content :=
      (if st.accText = "" then []
       else [Json.jobj [("type", Json.jstr "text"), ("text", Json.jstr st.accText)]]) ++
      st.tool_uses
    { st with full_response := some (Json.jobj [("content", Json.jarr content)]) }
  else st

/-- The state after consuming a whole Anthropic stream. -/
def anthRun (parse : String → Option Json) (events : List Json) : AnthState :=
  events.foldl (anthEventStep parse) ⟨"", [], [], "", "", "", none⟩

/-- `AgentLoop::handle_stream_response` (agent_loop.rs lines 795-906): the
emitted cumulative text snapshots and `full_response.ok_or("No response
received")`. -/
def handle_stream_response (parse : String → Option Json) (events : List Json) :
    List String × Except String Json :=
  let st := anthRun parse events
  (st.textEvents,
   match st.full_response with
   | some r => .ok r
   | none => .error "No response received")

/-! ## Claim C9 -/

/-- C9: on every path of `ToolExecutor::execute` — MCP success or failure,
unresolved MCP tool, absent MCP manager, docker tools, built-in tools and
unknown names — the returned `ToolResult` carries `tool_use_id` equal to the
input `ToolUse`'s `id` and `result_type = "tool_result"`. -/
theorem execute_result_id_and_type (env : ToolExecEnv) (tu : ToolUse) :
    (ToolExecutor.execute env tu).tool_use_id = tu.id ∧
    (ToolExecutor.execute env tu).result_type = "tool_result" := by
  unfold ToolExecutor.execute execute_docker_tool
  refine ⟨?_, ?_⟩ <;>
  · repeat' split
    all_goals simp only [ToolResult.success, ToolResult.error]
    all_goals first
      | rfl
      | (split <;> rfl)

/-! ## Claim C8 -/

/-- C8: `MCPManager::execute_tool` on a connected server maps a timed-out call
to the `"Tool execution timed out after 60 seconds"` failure, an envelope
carrying `result` to a success carrying that value, an envelope carrying
`error` to a failure reporting that error, and an envelope carrying neither to
the `"Invalid response format"` failure.  The well-formedness hypothesis rules
out an envelope carrying both `result` and `error` (impossible in JSON-RPC
2.0), on which the claim's first two cases would conflict. -/
theorem execute_tool_outcome_map (stringify : Json → String) (server_id : String)
    (response : Json)
    (hwf : ¬(((response.get "error").isSome = true) ∧ ((response.get "result").isSome = true))) :
    (MCPManager.execute_tool stringify true server_id .timeout =
      { success := false, result := Json.null,
        error := some "Tool execution timed out after 60 seconds" }) ∧
    (∀ r, response.get "result" = some r →
      MCPManager.execute_tool stringify true server_id (.completed (.ok response)) =
        { success := true, result := r, error := none }) ∧
    (∀ e, response.get "error" = some e →
      MCPManager.execute_tool stringify true server_id (.completed (.ok response)) =
        { success := false, result := Json.null,
          error := some ("Tool execution error: " ++ stringify e) }) ∧
    (response.get "error" = none → response.get "result" = none →
      MCPManager.execute_tool stringify true server_id (.completed (.ok response)) =
        { success := false, result := Json.null, error := some "Invalid response format" }) := by
  refine ⟨rfl, ?_, ?_, ?_⟩
  · intro r hr
    have herr : response.get "error" = none := by
      cases he : response.get "error" with
      | none => rfl
      | some e => exact absurd ⟨by simp [he], by simp [hr]⟩ hwf
    simp [MCPManager.execute_tool, herr, hr]
  · intro e he
    simp [MCPManager.execute_tool, he]
  · intro he hr
    simp [MCPManager.execute_tool, he, hr]

/-- Witness for C8 at a concrete envelope `{result: "ok"}` (and the timeout
case, which carries no envelope). -/
theorem execute_tool_outcome_map_witness :
    (¬((((Json.jobj [("result", Json.jstr "ok")]).get "error").isSome = true) ∧
       (((Json.jobj [("result", Json.jstr "ok")]).get "result").isSome = true))) ∧
    MCPManager.execute_tool (fun _ => "") true "srv"
        (.completed (.ok (Json.jobj [("result", Json.jstr "ok")]))) =
      { success := true, result := Json.jstr "ok", error := none } ∧
    MCPManager.execute_tool (fun _ => "") true "srv" .timeout =
      { success := false, result := Json.null,
        error := some "Tool execution timed out after 60 seconds" } := by
  have hwf : ¬((((Json.jobj [("result", Json.jstr "ok")]).get "error").isSome = true) ∧
      (((Json.jobj [("result", Json.jstr "ok")]).get "result").isSome = true)) := by
    intro h
    exact absurd h.1 (by decide)
  exact ⟨hwf,
    (execute_tool_outcome_map (fun _ => "") "srv" (Json.jobj [("result", Json.jstr "ok")]) hwf).2.1
      (Json.jstr "ok") rfl,
    (execute_tool_outcome_map (fun _ => "") "srv" (Json.jobj [("result", Json.jstr "ok")]) hwf).1⟩

/-! ## Claim C10 -/

/-- The event type tag the Anthropic stream state machine dispatches on. -/
def anthEventType (e : Json) : String := ((e.get "type").bind Json.asStr).getD ""

set_option maxHeartbeats 1000000 in
theorem anthEventStep_resp_of_not_stop (parse : String → Option Json) (st : AnthState)
    (e : Json) (h : anthEventType e ≠ "message_stop") :
    (anthEventStep parse st e).full_response = st.full_response := by
  have h' : ((e.get "type").bind Json.asStr).getD "" ≠ "message_stop" := h
  simp only [anthEventStep]
  repeat' split
  all_goals rfl

theorem anthFold_resp_none (parse : String → Option Json) (events : List Json) :
    ∀ st : AnthState, (∀ e ∈ events, anthEventType e ≠ "message_stop") →
      st.full_response = none →
      (events.foldl (anthEventStep parse) st).full_response = none := by
  induction events with
  | nil => intro st _ h0; simpa using h0
  | cons e rest ih =>
      intro st hns h0
      simp only [List.foldl_cons]
      refine ih _ (fun x hx => hns x (List.mem_cons_of_mem _ hx)) ?_
      rw [anthEventStep_resp_of_not_stop parse st e (hns e (List.mem_cons_self _ _))]
      exact h0

/-- C10: if the Anthropic SSE stream delivers no `message_stop` event, the
handler returns the error `"No response received"`, whatever text deltas were
streamed; conversely a non-error result implies a `message_stop` event was
delivered — `message_stop` is the only finalization of the Anthropic path. -/
theorem anthropic_stream_requires_message_stop (parse : String → Option Json)
    (events : List Json) :
    ((∀ e ∈ events, anthEventType e ≠ "message_stop") →
      (handle_stream_response parse events).2 = .error "No response received") ∧
    ((handle_stream_response parse events).2 ≠ .error "No response received" →
      ∃ e ∈ events, anthEventType e = "message_stop") := by
  constructor
  · intro hns
    have h := anthFold_resp_none parse events ⟨"", [], [], "", "", "", none⟩ hns rfl
    simp only [handle_stream_response, anthRun]
    rw [h]
  · intro hne
    by_contra hno
    push_neg at hno
    have h := anthFold_resp_none parse events ⟨"", [], [], "", "", "", none⟩ hno rfl
    apply hne
    simp only [handle_stream_response, anthRun]
    rw [h]

/-- Witness for C10: a stream holding a single text delta (whose cumulative
text is emitted) but no `message_stop` yields the `"No response received"`
error. -/
theorem anthropic_stream_requires_message_stop_witness :
    (∀ e ∈ [Json.jobj [("type", Json.jstr "content_block_delta"),
        ("delta", Json.jobj [("type", Json.jstr "text_delta"), ("text", Json.jstr "Hi")])]],
      anthEventType e ≠ "message_stop") ∧
    (handle_stream_response (fun _ => none)
        [Json.jobj [("type", Json.jstr "content_block_delta"),
          ("delta", Json.jobj [("type", Json.jstr "text_delta"), ("text", Json.jstr "Hi")])]]).1
      = ["Hi"] ∧
    (handle_stream_response (fun _ => none)
        [Json.jobj [("type", Json.jstr "content_block_delta"),
          ("delta", Json.jobj [("type", Json.jstr "text_delta"), ("text", Json.jstr "Hi")])]]).2
      = .error "No response received" := by
  have hns : ∀ e ∈ [Json.jobj [("type", Json.jstr "content_block_delta"),
      ("delta", Json.jobj [("type", Json.jstr "text_delta"), ("text", Json.jstr "Hi")])]],
      anthEventType e ≠ "message_stop" := by
    intro e he
    rw [List.mem_singleton] at he
    subst he
    decide
  exact ⟨hns, rfl,
    (anthropic_stream_requires_message_stop (fun _ => none) _).1 hns⟩

/-! ## Claim C5 -/

/-- C5 counterexample: on `"[step 0 start][STEP 1 DONE][STEP 2 START]"` the
scan emits `StepStart 2` then `StepDone 1` — the lower-case marker is not
matched (the regexes are case-sensitive) and the `DONE` marker, though left of
the `START` marker, is emitted after it (all `START` hits are sent before any
`DONE` hit), so the output is not the claim's case-insensitive left-to-right
sequence `[StepStart 0, StepDone 1, StepStart 2]`. -/
theorem emit_step_markers_not_source_order :
    emit_step_markers "[step 0 start][STEP 1 DONE][STEP 2 START]" =
      [AgentEvent.stepStart 2, AgentEvent.stepDone 1] ∧
    ([AgentEvent.stepStart 2, AgentEvent.stepDone 1] ≠
      [AgentEvent.stepStart 0, AgentEvent.stepDone 1, AgentEvent.stepStart 2]) := by
  refine ⟨rfl, ?_⟩
  intro h
  have := congrArg List.length h
  simp at this

/-! Helper lemmas for the amended step-marker theorem. -/

theorem ws_ne_bracket {c : Char} (h : isRegexWs c = true) : c ≠ '[' := by
  simp only [isRegexWs, Bool.or_eq_true, decide_eq_true_eq] at h
  rcases h with ((((h | h) | h) | h) | h) | h <;> subst h <;> decide

theorem ws_not_digit {c : Char} (h : isRegexWs c = true) : c.isDigit = false := by
  simp only [isRegexWs, Bool.or_eq_true, decide_eq_true_eq] at h
  rcases h with ((((h | h) | h) | h) | h) | h <;> subst h <;> decide

theorem digit_not_ws {c : Char} (h : c.isDigit = true) : isRegexWs c = false := by
  cases hw : isRegexWs c with
  | false => rfl
  | true => rw [ws_not_digit hw] at h; exact absurd h (by simp)

theorem digit_ne_bracket {c : Char} (h : c.isDigit = true) : c ≠ '[' := by
  intro hc
  subst hc
  exact absurd h (by decide)

theorem dropWhile_all_append {p : Char → Bool} {a : List Char} (b : List Char)
    (ha : ∀ c ∈ a, p c = true) : (a ++ b).dropWhile p = b.dropWhile p := by
  induction a with
  | nil => rfl
  | cons c t ih =>
      have hc : p c = true := ha c (List.mem_cons_self _ _)
      simp only [List.cons_append, List.dropWhile_cons, hc, if_true]
      exact ih (fun x hx => ha x (List.mem_cons_of_mem _ hx))

theorem dropWhile_head_false {p : Char → Bool} {c : Char} (t : List Char)
    (hc : p c = false) : (c :: t).dropWhile p = c :: t := by
  simp [List.dropWhile_cons, hc]

theorem takeDigitsL_all_append {ds : List Char} (rest : List Char)
    (hds : ∀ c ∈ ds, c.isDigit = true)
    (hrest : ∀ c, rest.head? = some c → c.isDigit = false) :
    takeDigitsL (ds ++ rest) = (ds, rest) := by
  induction ds with
  | nil =>
      cases rest with
      | nil => rfl
      | cons c t =>
          have := hrest c rfl
          simp [takeDigitsL, this]
  | cons d dt ih =>
      have hd : d.isDigit = true := hds d (List.mem_cons_self _ _)
      have ih' := ih (fun x hx => hds x (List.mem_cons_of_mem _ hx))
      simp only [List.cons_append, takeDigitsL, hd, if_true, List.append_eq]
      rw [ih']

theorem isPrefixL_self_append (a b : List Char) : isPrefixL a (a ++ b) = true := by
  induction a with
  | nil => rfl
  | cons c t ih => simp [isPrefixL, ih]

theorem markerNumAt_not_bracket {w : List Char} {c : Char} {t : List Char}
    (h : c ≠ '[') : markerNumAt w (c :: t) = none := by
  unfold markerNumAt
  split
  · rename_i rest heq
    exact absurd (List.cons.injEq _ _ _ _ ▸ heq).1 h
  · rfl

theorem scanMarkers_no_bracket {w : List Char} {cs : List Char}
    (h : ∀ c ∈ cs, c ≠ '[') : scanMarkers w cs = [] := by
  induction cs with
  | nil => rfl
  | cons c t ih =>
      have hm := markerNumAt_not_bracket (w := w) (t := t) (h c (List.mem_cons_self _ _))
      simp only [scanMarkers, hm]
      exact ih (fun x hx => h x (List.mem_cons_of_mem _ hx))

theorem scanMarkers_append_no_bracket {w : List Char} {p : List Char} (rest : List Char)
    (h : ∀ c ∈ p, c ≠ '[') : scanMarkers w (p ++ rest) = scanMarkers w rest := by
  induction p with
  | nil => rfl
  | cons c t ih =>
      have hm := markerNumAt_not_bracket (w := w) (t := t ++ rest) (h c (List.mem_cons_self _ _))
      simp only [List.cons_append, scanMarkers, List.append_eq, hm]
      exact ih (fun x hx => h x (List.mem_cons_of_mem _ hx))

theorem markerAfterStep_hit (wc : Char) (wt ws1 ds ws2 q : List Char)
    (hwc1 : isRegexWs wc = false) (hwc2 : wc.isDigit = false) (hds : ds ≠ [])
    (hdig : ∀ c ∈ ds, c.isDigit = true)
    (hws1 : ∀ c ∈ ws1, isRegexWs c = true) (hws2 : ∀ c ∈ ws2, isRegexWs c = true) :
    markerAfterStep (wc :: wt) (ws1 ++ (ds ++ (ws2 ++ ((wc :: wt) ++ (']' :: q)))))
      = some (digitsVal ds) := by
  rcases ds with _ | ⟨d, dt⟩
  · exact absurd rfl hds
  have hd : d.isDigit = true := hdig d (List.mem_cons_self _ _)
  have hXhead : ∀ c, (ws2 ++ ((wc :: wt) ++ (']' :: q))).head? = some c → c.isDigit = false := by
    intro c hc
    cases ws2 with
    | nil =>
        simp only [List.nil_append, List.cons_append, List.head?_cons, Option.some.injEq] at hc
        subst hc
        exact hwc2
    | cons w2 t2 =>
        simp only [List.cons_append, List.head?_cons, Option.some.injEq] at hc
        subst hc
        exact ws_not_digit (hws2 w2 (List.mem_cons_self _ _))
  unfold markerAfterStep
  rw [dropWhile_all_append _ hws1]
  rw [show (d :: dt) ++ (ws2 ++ ((wc :: wt) ++ (']' :: q)))
        = d :: (dt ++ (ws2 ++ ((wc :: wt) ++ (']' :: q)))) from rfl]
  rw [dropWhile_head_false _ (digit_not_ws hd)]
  rw [show d :: (dt ++ (ws2 ++ ((wc :: wt) ++ (']' :: q))))
        = (d :: dt) ++ (ws2 ++ ((wc :: wt) ++ (']' :: q))) from rfl]
  rw [takeDigitsL_all_append _ hdig hXhead]
  simp only
  rw [dropWhile_all_append _ hws2]
  rw [show (wc :: wt) ++ (']' :: q) = wc :: (wt ++ (']' :: q)) from rfl]
  rw [dropWhile_head_false _ hwc1]
  rw [show wc :: (wt ++ (']' :: q)) = ((wc :: wt) ++ [']']) ++ q by simp]
  rw [isPrefixL_self_append]
  rfl

theorem markerAfterStep_miss (wc : Char) (wt : List Char) (oc : Char) (ot : List Char)
    (ws1 ds ws2 q : List Char)
    (hwc1 : isRegexWs wc = false) (hwc2 : wc.isDigit = false) (hne : oc ≠ wc) (hds : ds ≠ [])
    (hdig : ∀ c ∈ ds, c.isDigit = true)
    (hws1 : ∀ c ∈ ws1, isRegexWs c = true) (hws2 : ∀ c ∈ ws2, isRegexWs c = true) :
    markerAfterStep (oc :: ot) (ws1 ++ (ds ++ (ws2 ++ ((wc :: wt) ++ (']' :: q)))))
      = none := by
  rcases ds with _ | ⟨d, dt⟩
  · exact absurd rfl hds
  have hd : d.isDigit = true := hdig d (List.mem_cons_self _ _)
  have hXhead : ∀ c, (ws2 ++ ((wc :: wt) ++ (']' :: q))).head? = some c → c.isDigit = false := by
    intro c hc
    cases ws2 with
    | nil =>
        simp only [List.nil_append, List.cons_append, List.head?_cons, Option.some.injEq] at hc
        subst hc
        exact hwc2
    | cons w2 t2 =>
        simp only [List.cons_append, List.head?_cons, Option.some.injEq] at hc
        subst hc
        exact ws_not_digit (hws2 w2 (List.mem_cons_self _ _))
  unfold markerAfterStep
  rw [dropWhile_all_append _ hws1]
  rw [show (d :: dt) ++ (ws2 ++ ((wc :: wt) ++ (']' :: q)))
        = d :: (dt ++ (ws2 ++ ((wc :: wt) ++ (']' :: q)))) from rfl]
  rw [dropWhile_head_false _ (digit_not_ws hd)]
  rw [show d :: (dt ++ (ws2 ++ ((wc :: wt) ++ (']' :: q))))
        = (d :: dt) ++ (ws2 ++ ((wc :: wt) ++ (']' :: q))) from rfl]
  rw [takeDigitsL_all_append _ hdig hXhead]
  simp only
  rw [dropWhile_all_append _ hws2]
  rw [show (wc :: wt) ++ (']' :: q) = wc :: (wt ++ (']' :: q)) from rfl]
  rw [dropWhile_head_false _ hwc1]
  simp [isPrefixL, hne]

theorem marker_tail_no_bracket (wc : Char) (wt ws1 ds ws2 q : List Char)
    (hdig : ∀ c ∈ ds, c.isDigit = true)
    (hws1 : ∀ c ∈ ws1, isRegexWs c = true) (hws2 : ∀ c ∈ ws2, isRegexWs c = true)
    (hw : ∀ c ∈ wc :: wt, c ≠ '[') (hq : ∀ c ∈ q, c ≠ '[') :
    ∀ c ∈ ('S' :: 'T' :: 'E' :: 'P' ::
      (ws1 ++ (ds ++ (ws2 ++ ((wc :: wt) ++ (']' :: q)))))), c ≠ '[' := by
  intro c hc
  simp only [List.mem_cons, List.mem_append] at hc
  rcases hc with h | h | h | h | h
  · subst h; decide
  · subst h; decide
  · subst h; decide
  · subst h; decide
  rcases h with h | h
  · exact ws_ne_bracket (hws1 c h)
  rcases h with h | h
  · exact digit_ne_bracket (hdig c h)
  rcases h with h | h
  · exact ws_ne_bracket (hws2 c h)
  rcases h with h | h
  · exact hw c (by simpa using h)
  rcases h with h | h
  · subst h; decide
  · exact hq c h

theorem scanMarkers_marker_hit (wc : Char) (wt p ws1 ds ws2 q : List Char)
    (hp : ∀ c ∈ p, c ≠ '[') (hq : ∀ c ∈ q, c ≠ '[')
    (hwc1 : isRegexWs wc = false) (hwc2 : wc.isDigit = false)
    (hw : ∀ c ∈ wc :: wt, c ≠ '[')
    (hds : ds ≠ []) (hdig : ∀ c ∈ ds, c.isDigit = true)
    (hws1 : ∀ c ∈ ws1, isRegexWs c = true) (hws2 : ∀ c ∈ ws2, isRegexWs c = true)
    (hbound : digitsVal ds ≤ i32Max) :
    scanMarkers (wc :: wt)
      (p ++ ('[' :: 'S' :: 'T' :: 'E' :: 'P' ::
        (ws1 ++ (ds ++ (ws2 ++ ((wc :: wt) ++ (']' :: q)))))))
      = [digitsVal ds] := by
  rw [scanMarkers_append_no_bracket _ hp]
  rw [scanMarkers]
  rw [show markerNumAt (wc :: wt)
      ('[' :: 'S' :: 'T' :: 'E' :: 'P' ::
        (ws1 ++ (ds ++ (ws2 ++ ((wc :: wt) ++ (']' :: q))))))
      = markerAfterStep (wc :: wt)
          (ws1 ++ (ds ++ (ws2 ++ ((wc :: wt) ++ (']' :: q))))) from rfl]
  rw [markerAfterStep_hit wc wt ws1 ds ws2 q hwc1 hwc2 hds hdig hws1 hws2]
  simp only [hbound, if_true]
  rw [scanMarkers_no_bracket
    (marker_tail_no_bracket wc wt ws1 ds ws2 q hdig hws1 hws2 hw hq)]

theorem scanMarkers_marker_miss (wc : Char) (wt : List Char) (oc : Char)
    (ot p ws1 ds ws2 q : List Char)
    (hp : ∀ c ∈ p, c ≠ '[') (hq : ∀ c ∈ q, c ≠ '[')
    (hwc1 : isRegexWs wc = false) (hwc2 : wc.isDigit = false) (hne : oc ≠ wc)
    (hw : ∀ c ∈ wc :: wt, c ≠ '[')
    (hds : ds ≠ []) (hdig : ∀ c ∈ ds, c.isDigit = true)
    (hws1 : ∀ c ∈ ws1, isRegexWs c = true) (hws2 : ∀ c ∈ ws2, isRegexWs c = true) :
    scanMarkers (oc :: ot)
      (p ++ ('[' :: 'S' :: 'T' :: 'E' :: 'P' ::
        (ws1 ++ (ds ++ (ws2 ++ ((wc :: wt) ++ (']' :: q)))))))
      = [] := by
  rw [scanMarkers_append_no_bracket _ hp]
  rw [scanMarkers]
  rw [show markerNumAt (oc :: ot)
      ('[' :: 'S' :: 'T' :: 'E' :: 'P' ::
        (ws1 ++ (ds ++ (ws2 ++ ((wc :: wt) ++ (']' :: q))))))
      = markerAfterStep (oc :: ot)
          (ws1 ++ (ds ++ (ws2 ++ ((wc :: wt) ++ (']' :: q))))) from rfl]
  rw [markerAfterStep_miss wc wt oc ot ws1 ds ws2 q hwc1 hwc2 hne hds hdig hws1 hws2]
  rw [scanMarkers_no_bracket
    (marker_tail_no_bracket wc wt ws1 ds ws2 q hdig hws1 hws2 hw hq)]

/-- C5 (amended): the scan matches `[STEP N START]` / `[STEP N DONE]` with a
case-sensitive `STEP` (and closing word), tolerating whitespace both between
`STEP` and the number and between the number and the closing word; it emits
all `StepStart` markers in left-to-right text order first, followed by all
`StepDone` markers in left-to-right text order — not in interleaved source
order.  Stated generally for a marker with arbitrary whitespace padding and
digit run embedded in bracket-free context, plus the spec's four-marker
example, on which the two orders coincide. -/
theorem emit_step_markers_amended (p q ds ws1 ws2 : List Char)
    (hp : ∀ c ∈ p, c ≠ '[') (hq : ∀ c ∈ q, c ≠ '[')
    (hds : ds ≠ []) (hdig : ∀ c ∈ ds, c.isDigit = true)
    (hws1 : ∀ c ∈ ws1, isRegexWs c = true) (hws2 : ∀ c ∈ ws2, isRegexWs c = true)
    (hbound : digitsVal ds ≤ i32Max) :
    emit_step_markers (String.mk (p ++ ('[' :: 'S' :: 'T' :: 'E' :: 'P' ::
        (ws1 ++ (ds ++ (ws2 ++ ('S' :: 'T' :: 'A' :: 'R' :: 'T' :: ']' :: q)))))))
      = [AgentEvent.stepStart (Int.ofNat (digitsVal ds))] ∧
    emit_step_markers (String.mk (p ++ ('[' :: 'S' :: 'T' :: 'E' :: 'P' ::
        (ws1 ++ (ds ++ (ws2 ++ ('D' :: 'O' :: 'N' :: 'E' :: ']' :: q)))))))
      = [AgentEvent.stepDone (Int.ofNat (digitsVal ds))] ∧
    emit_step_markers "[STEP 1 START]x[STEP 2 START]y[STEP 1 DONE]z[STEP 2 DONE]" =
      [AgentEvent.stepStart 1, AgentEvent.stepStart 2,
       AgentEvent.stepDone 1, AgentEvent.stepDone 2] := by
  refine ⟨?_, ?_, rfl⟩
  · unfold emit_step_markers
    rw [show (String.mk (p ++ ('[' :: 'S' :: 'T' :: 'E' :: 'P' ::
        (ws1 ++ (ds ++ (ws2 ++ ('S' :: 'T' :: 'A' :: 'R' :: 'T' :: ']' :: q))))))).toList
        = p ++ ('[' :: 'S' :: 'T' :: 'E' :: 'P' ::
          (ws1 ++ (ds ++ (ws2 ++ (('S' :: ['T', 'A', 'R', 'T']) ++ (']' :: q)))))) from rfl]
    rw [show "START".toList = 'S' :: ['T', 'A', 'R', 'T'] from rfl]
    rw [show "DONE".toList = 'D' :: ['O', 'N', 'E'] from rfl]
    rw [scanMarkers_marker_hit 'S' ['T', 'A', 'R', 'T'] p ws1 ds ws2 q hp hq
      (by decide) (by decide) (by decide) hds hdig hws1 hws2 hbound]
    rw [scanMarkers_marker_miss 'S' ['T', 'A', 'R', 'T'] 'D' ['O', 'N', 'E'] p ws1 ds ws2 q
      hp hq (by decide) (by decide) (by decide) (by decide) hds hdig hws1 hws2]
    simp
  · unfold emit_step_markers
    rw [show (String.mk (p ++ ('[' :: 'S' :: 'T' :: 'E' :: 'P' ::
        (ws1 ++ (ds ++ (ws2 ++ ('D' :: 'O' :: 'N' :: 'E' :: ']' :: q))))))).toList
        = p ++ ('[' :: 'S' :: 'T' :: 'E' :: 'P' ::
          (ws1 ++ (ds ++ (ws2 ++ (('D' :: ['O', 'N', 'E']) ++ (']' :: q)))))) from rfl]
    rw [show "START".toList = 'S' :: ['T', 'A', 'R', 'T'] from rfl]
    rw [show "DONE".toList = 'D' :: ['O', 'N', 'E'] from rfl]
    rw [scanMarkers_marker_hit 'D' ['O', 'N', 'E'] p ws1 ds ws2 q hp hq
      (by decide) (by decide) (by decide) hds hdig hws1 hws2 hbound]
    rw [scanMarkers_marker_miss 'D' ['O', 'N', 'E'] 'S' ['T', 'A', 'R', 'T'] p ws1 ds ws2 q
      hp hq (by decide) (by decide) (by decide) (by decide) hds hdig hws1 hws2]
    simp

/-- Witness for the amended C5 theorem at `"a[STEP  12 START]b"`. -/
theorem emit_step_markers_amended_witness :
    emit_step_markers (String.mk (['a'] ++ ('[' :: 'S' :: 'T' :: 'E' :: 'P' ::
        ([' ', ' '] ++ (['1', '2'] ++ ([' '] ++
          ('S' :: 'T' :: 'A' :: 'R' :: 'T' :: ']' :: ['b'])))))))
      = [AgentEvent.stepStart (Int.ofNat (digitsVal ['1', '2']))] := by
  exact (emit_step_markers_amended ['a'] ['b'] ['1', '2'] [' ', ' '] [' ']
    (by decide) (by decide) (by decide) (by decide) (by decide) (by decide) (by decide)).1

/-! ## Claim C7 -/

/-- Spec-side definition for the refinement comparison, following the claim's
words "starts with or contains `o1`/`o3`, or starts with `gpt-5`" (with plain
substring containment). -/
def specReasoningPattern (model : String) : Bool :=
  let lower := lowerStr model
  strStartsWith lower "o1" || strStartsWith lower "o3" ||
  strContains lower "o1" || strContains lower "o3" ||
  strStartsWith lower "gpt-5"

/-- C7 counterexample: the model name `"no1"` matches the claim's reasoning
pattern (it contains `o1`), so the claim predicts the temperature field is
omitted; but the code's pattern requires a hyphen-adjacent `o1` (or a name
starting with `o1`), so the serializer emits the configured temperature. -/
theorem openai_temperature_counterexample :
    specReasoningPattern "no1" = true ∧
    is_reasoning_model "no1" = false ∧
    (convert_to_openai_format (fun _ => "")
      { model := "no1", max_tokens := 256, system := "", messages := [], tools := [],
        temperature := some 1, stream := true }).hasKey "temperature" = true := by
  refine ⟨by decide, by decide, by decide⟩

theorem lookupField_upsert (fs : List (String × Json)) (k k' : String) (v : Json) :
    lookupField (upsertField fs k v) k' = if k' = k then some v else lookupField fs k' := by
  induction fs with
  | nil => simp [upsertField, lookupField]
  | cons p rest ih =>
      rcases p with ⟨pk, pv⟩
      simp only [upsertField]
      by_cases h1 : pk = k
      · subst h1
        simp only [if_pos rfl, lookupField]
        by_cases h2 : k' = pk <;> simp [h2]
      · rw [if_neg h1]
        simp only [lookupField]
        by_cases h2 : k' = pk
        · subst h2
          simp [h1]
        · simp [h2, ih]

theorem get_setKey_jobj (fs : List (String × Json)) (k k' : String) (v : Json) :
    (Json.setKey (Json.jobj fs) k v).get k' =
      if k' = k then some v else (Json.jobj fs).get k' := by
  simp [Json.setKey, Json.get, lookupField_upsert]

/-- C7 (amended): for every request with a configured temperature, the OpenAI
serializer sets `max_tokens` exactly when the lower-cased model name matches
the legacy pattern (contains `gpt-3.5`, or contains `gpt-4` but not `gpt-4o`
and not `gpt-4-turbo`) and otherwise sets `max_completion_tokens`; the
temperature field is omitted exactly when the name matches the code's
reasoning pattern: starts with `o1`, `o3` or `gpt-5`, or contains `-o1`,
`-o3`, `o1-` or `o3-`. -/
theorem convert_openai_token_and_temperature (stringify : Json → String)
    (request : ClaudeApiRequest) (t : Int) (htemp : request.temperature = some t) :
    ((convert_to_openai_format stringify request).hasKey "max_tokens"
        = is_legacy_openai_model request.model) ∧
    ((convert_to_openai_format stringify request).hasKey "max_completion_tokens"
        = !is_legacy_openai_model request.model) ∧
    ((convert_to_openai_format stringify request).hasKey "temperature"
        = !is_reasoning_model request.model) := by
  unfold convert_to_openai_format
  rw [htemp]
  rcases htools : request.tools with _ | ⟨t0, ts⟩ <;>
  by_cases hleg : is_legacy_openai_model request.model = true <;>
  by_cases hreas : is_reasoning_model request.model = true <;>
  simp only [Bool.not_eq_true] at hleg hreas <;>
  simp [hleg, hreas, Json.setKey, Json.hasKey, Json.get, upsertField, lookupField]

/-- Witness for the amended C7 theorem at a concrete request for model
`"gpt-4-0613"` (legacy, non-reasoning) with temperature configured. -/
theorem convert_openai_token_and_temperature_witness :
    ({ model := "gpt-4-0613", max_tokens := 256, system := "", messages := [], tools := [],
       temperature := some 1, stream := true : ClaudeApiRequest }.temperature = some 1) ∧
    ((convert_to_openai_format (fun _ => "")
      { model := "gpt-4-0613", max_tokens := 256, system := "", messages := [], tools := [],
        temperature := some 1, stream := true }).hasKey "max_tokens"
        = is_legacy_openai_model "gpt-4-0613") ∧
    ((convert_to_openai_format (fun _ => "")
      { model := "gpt-4-0613", max_tokens := 256, system := "", messages := [], tools := [],
        temperature := some 1, stream := true }).hasKey "max_completion_tokens"
        = !is_legacy_openai_model "gpt-4-0613") ∧
    ((convert_to_openai_format (fun _ => "")
      { model := "gpt-4-0613", max_tokens := 256, system := "", messages := [], tools := [],
        temperature := some 1, stream := true }).hasKey "temperature"
        = !is_reasoning_model "gpt-4-0613") :=
  ⟨rfl, convert_openai_token_and_temperature (fun _ => "") _ 1 rfl⟩

/-! ## Claims C1-C3: the turn loop -/

/-- Number of terminal events (`Done` or `Error`) in an event sequence. -/
def terminalCount (events : List AgentEvent) : Nat :=
  (events.filter AgentEvent.isTerminal).length

theorem terminalCount_append (a b : List AgentEvent) :
    terminalCount (a ++ b) = terminalCount a + terminalCount b := by
  simp [terminalCount, List.filter_append]

theorem terminalCount_eq_zero {l : List AgentEvent}
    (h : ∀ e ∈ l, e.isTerminal = false) : terminalCount l = 0 := by
  simp [terminalCount, List.filter_eq_nil_iff.mpr (by simpa using h)]

theorem terminalCount_map_text (l : List String) :
    terminalCount (l.map AgentEvent.text) = 0 := by
  refine terminalCount_eq_zero ?_
  intro e he
  rcases List.mem_map.mp he with ⟨s, -, rfl⟩
  rfl

theorem terminalCount_plan (o : Option (List PlanStepInfo)) :
    terminalCount (match o with
      | some steps => [AgentEvent.plan steps]
      | none => []) = 0 := by
  cases o <;> rfl

theorem terminalCount_steps (t : String) : terminalCount (emit_step_markers t) = 0 := by
  refine terminalCount_eq_zero ?_
  intro e he
  unfold emit_step_markers at he
  rcases List.mem_append.mp he with h | h <;>
    rcases List.mem_map.mp h with ⟨n, -, rfl⟩ <;> rfl

theorem terminalCount_finalText (t : String) :
    terminalCount (if t = "" then [] else [AgentEvent.text t]) = 0 := by
  by_cases h : t = "" <;> simp [h, terminalCount, AgentEvent.isTerminal]

theorem terminalCount_toolEvents (exec : ToolUse → ToolResult) (tus : List ToolUse) :
    terminalCount (tus.flatMap (fun tu =>
      [AgentEvent.toolStart tu.name tu.input,
       AgentEvent.toolEnd tu.name (exec tu).content (exec tu).is_error.isNone])) = 0 := by
  refine terminalCount_eq_zero ?_
  intro e he
  rcases List.mem_flatMap.mp he with ⟨tu, -, hm⟩
  simp only [List.mem_cons, List.not_mem_nil, or_false] at hm
  rcases hm with rfl | rfl <;> rfl

/-- Events of one turn up to (and including) the final text emission. -/
def turnPrefixEvents (streamed : List String) (text_content : String) : List AgentEvent :=
  streamed.map AgentEvent.text ++
  (match parse_plan text_content with
    | some steps => [AgentEvent.plan steps]
    | none => []) ++
  emit_step_markers text_content ++
  (if text_content = "" then [] else [AgentEvent.text text_content])

theorem terminalCount_turnPrefix (streamed : List String) (t : String) :
    terminalCount (turnPrefixEvents streamed t) = 0 := by
  simp only [turnPrefixEvents, terminalCount_append, terminalCount_map_text,
    terminalCount_plan, terminalCount_steps, terminalCount_finalText]

theorem runAux_zero (exec : ToolUse → ToolResult) (llm : LlmOracle) (max_turns turn : Nat)
    (messages : List AgentMessage) :
    runAux exec llm max_turns 0 turn messages =
      ([.error ("Reached maximum turns (" ++ toString max_turns ++ ")")], .ok messages) := rfl

theorem runAux_llm_error (exec : ToolUse → ToolResult) (llm : LlmOracle)
    (max_turns r turn : Nat) (messages : List AgentMessage)
    (streamed : List String) (e : String) (h : llm messages = (streamed, .error e)) :
    runAux exec llm max_turns (r + 1) turn messages =
      (streamed.map AgentEvent.text, .error e) := by
  simp [runAux, h]

theorem runAux_parse_error (exec : ToolUse → ToolResult) (llm : LlmOracle)
    (max_turns r turn : Nat) (messages : List AgentMessage)
    (streamed : List String) (response : Json) (e : String)
    (h1 : llm messages = (streamed, .ok response))
    (h2 : parse_response response = .error e) :
    runAux exec llm max_turns (r + 1) turn messages =
      (streamed.map AgentEvent.text, .error e) := by
  simp [runAux, h1, h2]

theorem runAux_done (exec : ToolUse → ToolResult) (llm : LlmOracle)
    (max_turns r turn : Nat) (messages : List AgentMessage)
    (streamed : List String) (response : Json) (text_content : String)
    (h1 : llm messages = (streamed, .ok response))
    (h2 : parse_response response = .ok (text_content, [])) :
    runAux exec llm max_turns (r + 1) turn messages =
      (turnPrefixEvents streamed text_content ++ [.done turn],
       .ok (messages ++ [⟨"assistant", AgentContent.text text_content⟩])) := by
  simp [runAux, h1, h2, turnPrefixEvents, assistantContentOf]

theorem runAux_tools (exec : ToolUse → ToolResult) (llm : LlmOracle)
    (max_turns r turn : Nat) (messages : List AgentMessage)
    (streamed : List String) (response : Json) (text_content : String)
    (tool_uses : List ToolUse)
    (h1 : llm messages = (streamed, .ok response))
    (h2 : parse_response response = .ok (text_content, tool_uses))
    (h3 : tool_uses ≠ []) :
    runAux exec llm max_turns (r + 1) turn messages =
      (turnPrefixEvents streamed text_content ++
        tool_uses.flatMap (fun tu =>
          [AgentEvent.toolStart tu.name tu.input,
           AgentEvent.toolEnd tu.name (exec tu).content (exec tu).is_error.isNone]) ++
        [.turnComplete turn] ++
        (runAux exec llm max_turns r (turn + 1)
          (messages ++ [⟨"assistant", assistantContentOf text_content tool_uses⟩] ++
           [⟨"user", AgentContent.toolResults (tool_uses.map exec)⟩])).1,
       (runAux exec llm max_turns r (turn + 1)
          (messages ++ [⟨"assistant", assistantContentOf text_content tool_uses⟩] ++
           [⟨"user", AgentContent.toolResults (tool_uses.map exec)⟩])).2) := by
  have htu : tool_uses.isEmpty = false := by
    cases tool_uses with
    | nil => exact absurd rfl h3
    | cons a t => rfl
  simp [runAux, h1, h2, htu, turnPrefixEvents, List.append_assoc]

/-- Terminal-event bookkeeping of the loop, by induction on the remaining
admissible turns: a normal return (`Ok`) emits exactly one terminal event and
it is the last event of the stream; an error return (a transport or parse
failure propagated through `?`) emits none. -/
theorem runAux_terminal (exec : ToolUse → ToolResult) (llm : LlmOracle) (max_turns : Nat) :
    ∀ (remaining turn : Nat) (messages : List AgentMessage),
      (∀ hist, (runAux exec llm max_turns remaining turn messages).2 = .ok hist →
        terminalCount (runAux exec llm max_turns remaining turn messages).1 = 1 ∧
        ∃ ev, (runAux exec llm max_turns remaining turn messages).1.getLast? = some ev ∧
          ev.isTerminal = true) ∧
      (∀ e, (runAux exec llm max_turns remaining turn messages).2 = .error e →
        terminalCount (runAux exec llm max_turns remaining turn messages).1 = 0) := by
  intro remaining
  induction remaining with
  | zero =>
      intro turn messages
      rw [runAux_zero]
      exact ⟨fun hist _ => ⟨rfl, ⟨_, rfl, rfl⟩⟩, fun e he => absurd he (by simp)⟩
  | succ r ih =>
      intro turn messages
      rcases hllm : llm messages with ⟨streamed, resp⟩
      rcases resp with e | response
      · rw [runAux_llm_error exec llm max_turns r turn messages streamed e hllm]
        exact ⟨fun hist h => absurd h (by simp),
               fun e' _ => terminalCount_map_text streamed⟩
      · rcases hparse : parse_response response with e | ⟨text_content, tool_uses⟩
        · rw [runAux_parse_error exec llm max_turns r turn messages streamed response e
            hllm hparse]
          exact ⟨fun hist h => absurd h (by simp),
                 fun e' _ => terminalCount_map_text streamed⟩
        · rcases htu : tool_uses with _ | ⟨tu0, tus⟩
          · rw [runAux_done exec llm max_turns r turn messages streamed response text_content
              hllm (htu ▸ hparse)]
            refine ⟨fun hist _ => ⟨?_, ⟨AgentEvent.done turn, by simp, rfl⟩⟩,
                    fun e' h => absurd h (by simp)⟩
            rw [terminalCount_append, terminalCount_turnPrefix]
            rfl
          · rw [runAux_tools exec llm max_turns r turn messages streamed response text_content
              (tu0 :: tus) hllm (htu ▸ hparse) (by simp)]
            obtain ⟨ihok, iherr⟩ := ih (turn + 1)
              (messages ++ [⟨"assistant", assistantContentOf text_content (tu0 :: tus)⟩] ++
               [⟨"user", AgentContent.toolResults ((tu0 :: tus).map exec)⟩])
            set next := runAux exec llm max_turns r (turn + 1)
              (messages ++ [⟨"assistant", assistantContentOf text_content (tu0 :: tus)⟩] ++
               [⟨"user", AgentContent.toolResults ((tu0 :: tus).map exec)⟩]) with hnext
            constructor
            · intro hist hok
              obtain ⟨hcount, ev, hlast, hterm⟩ := ihok hist hok
              constructor
              · simp only [terminalCount_append, terminalCount_turnPrefix,
                  terminalCount_toolEvents]
                rw [show terminalCount [AgentEvent.turnComplete turn] = 0 from rfl]
                omega
              · refine ⟨ev, ?_, hterm⟩
                rw [List.getLast?_append, hlast]
                rfl
            · intro e' herr
              have := iherr e' herr
              simp only [terminalCount_append, terminalCount_turnPrefix,
                terminalCount_toolEvents]
              rw [show terminalCount [AgentEvent.turnComplete turn] = 0 from rfl]
              omega

/-- C1 counterexample: when the provider HTTP request fails on the first turn,
`run_with_history` terminates by returning the failure as its `Err` value, with
an empty emitted sequence — zero terminal events and no `Error` event, against
the claim's "exactly one terminal event" and "surfaced as an Error event". -/
theorem run_with_history_transport_failure :
    (run_with_history (fun tu => ToolResult.success tu.id "ok")
      (fun _ => ([], Except.error "HTTP error: connection refused")) 5
      [⟨"user", AgentContent.text "hello"⟩]).1 = [] ∧
    (run_with_history (fun tu => ToolResult.success tu.id "ok")
      (fun _ => ([], Except.error "HTTP error: connection refused")) 5
      [⟨"user", AgentContent.text "hello"⟩]).2 = .error "HTTP error: connection refused" ∧
    terminalCount (run_with_history (fun tu => ToolResult.success tu.id "ok")
      (fun _ => ([], Except.error "HTTP error: connection refused")) 5
      [⟨"user", AgentContent.text "hello"⟩]).1 = 0 :=
  ⟨rfl, rfl, rfl⟩

/-- C1 (amended): for every starting history and `max_turns ≥ 1`,
`run_with_history` terminates (it is a total function of its oracles); when it
returns `Ok` the emitted sequence contains exactly one terminal event (`Done`
or `Error`) and that event is last; when the provider HTTP request or stream
read fails, the failure is returned as the `Err` value of `run_with_history`
and no terminal event is emitted. -/
theorem run_with_history_terminal_events (exec : ToolUse → ToolResult) (llm : LlmOracle)
    (max_turns : Nat) (messages : List AgentMessage) (hmax : 1 ≤ max_turns) :
    (∀ hist, (run_with_history exec llm max_turns messages).2 = .ok hist →
      terminalCount (run_with_history exec llm max_turns messages).1 = 1 ∧
      ∃ ev, (run_with_history exec llm max_turns messages).1.getLast? = some ev ∧
        ev.isTerminal = true) ∧
    (∀ e, (run_with_history exec llm max_turns messages).2 = .error e →
      terminalCount (run_with_history exec llm max_turns messages).1 = 0) := by
  unfold run_with_history
  exact runAux_terminal exec llm max_turns max_turns 1 messages

/-- Witness for the amended C1 theorem: a one-turn pure-chat run emits exactly
one terminal event, the final `Done`. -/
theorem run_with_history_terminal_events_witness :
    (1 ≤ 3) ∧
    (terminalCount (run_with_history (fun tu => ToolResult.success tu.id "ok")
      (fun _ => (["Hi!"], Except.ok (Json.jobj [("content", Json.jarr
        [Json.jobj [("type", Json.jstr "text"), ("text", Json.jstr "Hi!")]])]))) 3
      [⟨"user", AgentContent.text "hello"⟩]).1 = 1 ∧
    ∃ ev, (run_with_history (fun tu => ToolResult.success tu.id "ok")
      (fun _ => (["Hi!"], Except.ok (Json.jobj [("content", Json.jarr
        [Json.jobj [("type", Json.jstr "text"), ("text", Json.jstr "Hi!")]])]))) 3
      [⟨"user", AgentContent.text "hello"⟩]).1.getLast? = some ev ∧
      ev.isTerminal = true) :=
  ⟨by decide,
   (run_with_history_terminal_events (fun tu => ToolResult.success tu.id "ok")
      (fun _ => (["Hi!"], Except.ok (Json.jobj [("content", Json.jarr
        [Json.jobj [("type", Json.jstr "text"), ("text", Json.jstr "Hi!")]])]))) 3
      [⟨"user", AgentContent.text "hello"⟩] (by decide)).1
     [⟨"user", AgentContent.text "hello"⟩, ⟨"assistant", AgentContent.text "Hi!"⟩] rfl⟩

/-- The outcome of one provider call as the loop sees it: `send_request`
followed by `parse_response`. -/
def turnParse (llm : LlmOracle) (messages : List AgentMessage) :
    Except String (String × List ToolUse) :=
  match (llm messages).2 with
  | .error e => .error e
  | .ok response => parse_response response

theorem filterTC_turnPrefix (s : List String) (t : String) :
    (turnPrefixEvents s t).filter AgentEvent.isTurnComplete = [] := by
  rw [List.filter_eq_nil_iff]
  intro e he
  unfold turnPrefixEvents at he
  rcases List.mem_append.mp he with he | he
  · rcases List.mem_append.mp he with he | he
    · rcases List.mem_append.mp he with he | he
      · rcases List.mem_map.mp he with ⟨s', -, rfl⟩
        simp [AgentEvent.isTurnComplete]
      · rcases hp : parse_plan t with _ | steps <;> rw [hp] at he
        · cases he
        · rcases List.mem_singleton.mp he with rfl
          simp [AgentEvent.isTurnComplete]
    · unfold emit_step_markers at he
      rcases List.mem_append.mp he with h | h <;>
        rcases List.mem_map.mp h with ⟨n, -, rfl⟩ <;>
        simp [AgentEvent.isTurnComplete]
  · by_cases ht : t = ""
    · rw [if_pos ht] at he; cases he
    · rw [if_neg ht] at he
      rcases List.mem_singleton.mp he with rfl
      simp [AgentEvent.isTurnComplete]

theorem filterTC_toolEvents (exec : ToolUse → ToolResult) (tus : List ToolUse) :
    (tus.flatMap (fun tu =>
      [AgentEvent.toolStart tu.name tu.input,
       AgentEvent.toolEnd tu.name (exec tu).content (exec tu).is_error.isNone])).filter
      AgentEvent.isTurnComplete = [] := by
  rw [List.filter_eq_nil_iff]
  intro e he
  rcases List.mem_flatMap.mp he with ⟨tu, -, hm⟩
  simp only [List.mem_cons, List.not_mem_nil, or_false] at hm
  rcases hm with rfl | rfl <;> simp [AgentEvent.isTurnComplete]

/-- When every provider call yields at least one tool use, the loop runs its
remaining turns to exhaustion: the `TurnComplete` events are exactly
`turn, turn+1, …, turn+remaining-1`, and the last event is the max-turns
`Error`. -/
theorem runAux_maxturns (exec : ToolUse → ToolResult) (llm : LlmOracle) (max_turns : Nat)
    (htool : ∀ msgs, ∃ t tus, tus ≠ [] ∧ turnParse llm msgs = .ok (t, tus)) :
    ∀ (remaining turn : Nat) (messages : List AgentMessage),
      ((runAux exec llm max_turns remaining turn messages).1.filter AgentEvent.isTurnComplete
        = (List.range remaining).map (fun i => AgentEvent.turnComplete (turn + i))) ∧
      (runAux exec llm max_turns remaining turn messages).1.getLast?
        = some (AgentEvent.error ("Reached maximum turns (" ++ toString max_turns ++ ")")) := by
  intro remaining
  induction remaining with
  | zero =>
      intro turn messages
      rw [runAux_zero]
      exact ⟨rfl, rfl⟩
  | succ r ih =>
      intro turn messages
      obtain ⟨t, tus, htus, hparse'⟩ := htool messages
      rcases hllm : llm messages with ⟨streamed, resp⟩
      simp only [turnParse, hllm] at hparse'
      rcases resp with e | response
      · exact absurd hparse' (by simp)
      · rcases htu : tus with _ | ⟨tu0, tusr⟩
        · exact absurd htu htus
        rw [htu] at hparse'
        rw [runAux_tools exec llm max_turns r turn messages streamed response t
          (tu0 :: tusr) hllm hparse' (by simp)]
        obtain ⟨ihf, ihl⟩ := ih (turn + 1)
          (messages ++ [⟨"assistant", assistantContentOf t (tu0 :: tusr)⟩] ++
           [⟨"user", AgentContent.toolResults ((tu0 :: tusr).map exec)⟩])
        constructor
        · simp only [List.filter_append, filterTC_turnPrefix, filterTC_toolEvents]
          rw [show List.filter AgentEvent.isTurnComplete [AgentEvent.turnComplete turn]
              = [AgentEvent.turnComplete turn] from rfl]
          rw [ihf]
          rw [List.range_succ_eq_map]
          have h1 : AgentEvent.turnComplete turn = AgentEvent.turnComplete (turn + 0) := by
            rw [Nat.add_zero]
          have h2 : (List.range r).map (fun i => AgentEvent.turnComplete (turn + 1 + i))
              = (List.range r).map ((fun i => AgentEvent.turnComplete (turn + i)) ∘ Nat.succ) := by
            apply List.map_congr_left
            intro i _
            simp only [Function.comp]
            congr 1
            omega
          rw [List.map_cons, List.map_map, h1, h2]
          simp
        · rw [List.getLast?_append, ihl]
          rfl

/-- C3: when the model requests a tool on every turn, `run_with_history` with
`max_turns = N` emits exactly the `TurnComplete` events for turns `1..N`, and
its last event — after which nothing further, in particular no tool dispatch,
happens — is the terminal `Error` with message `"Reached maximum turns (N)"`. -/
theorem run_with_history_max_turns (exec : ToolUse → ToolResult) (llm : LlmOracle)
    (N : Nat) (messages : List AgentMessage)
    (htool : ∀ msgs, ∃ t tus, tus ≠ [] ∧ turnParse llm msgs = .ok (t, tus)) :
    ((run_with_history exec llm N messages).1.filter AgentEvent.isTurnComplete
      = (List.range N).map (fun i => AgentEvent.turnComplete (i + 1))) ∧
    (run_with_history exec llm N messages).1.getLast?
      = some (AgentEvent.error ("Reached maximum turns (" ++ toString N ++ ")")) := by
  obtain ⟨h1, h2⟩ := runAux_maxturns exec llm N htool N 1 messages
  refine ⟨?_, h2⟩
  rw [show (run_with_history exec llm N messages).1
      = (runAux exec llm N N 1 messages).1 from rfl]
  rw [h1]
  apply List.map_congr_left
  intro i _
  congr 1
  omega

/-- Witness for C3 at `max_turns = 2` with a provider that always requests one
tool call: exactly `TurnComplete 1, TurnComplete 2`, then the max-turns error
last. -/
theorem run_with_history_max_turns_witness :
    (∀ msgs, ∃ t tus, tus ≠ [] ∧
      turnParse (fun _ => ([], Except.ok (Json.jobj [("content", Json.jarr
        [Json.jobj [("type", Json.jstr "tool_use"), ("id", Json.jstr "t1"),
          ("name", Json.jstr "bash"), ("input", Json.jobj [])]])]))) msgs = .ok (t, tus)) ∧
    ((run_with_history (fun tu => ToolResult.success tu.id "ok")
      (fun _ => ([], Except.ok (Json.jobj [("content", Json.jarr
        [Json.jobj [("type", Json.jstr "tool_use"), ("id", Json.jstr "t1"),
          ("name", Json.jstr "bash"), ("input", Json.jobj [])]])]))) 2
      [⟨"user", AgentContent.text "go"⟩]).1.filter AgentEvent.isTurnComplete
      = [AgentEvent.turnComplete 1, AgentEvent.turnComplete 2]) ∧
    (run_with_history (fun tu => ToolResult.success tu.id "ok")
      (fun _ => ([], Except.ok (Json.jobj [("content", Json.jarr
        [Json.jobj [("type", Json.jstr "tool_use"), ("id", Json.jstr "t1"),
          ("name", Json.jstr "bash"), ("input", Json.jobj [])]])]))) 2
      [⟨"user", AgentContent.text "go"⟩]).1.getLast?
      = some (AgentEvent.error "Reached maximum turns (2)") := by
  have hyp : ∀ msgs, ∃ t tus, tus ≠ [] ∧
      turnParse (fun _ => ([], Except.ok (Json.jobj [("content", Json.jarr
        [Json.jobj [("type", Json.jstr "tool_use"), ("id", Json.jstr "t1"),
          ("name", Json.jstr "bash"), ("input", Json.jobj [])]])]))) msgs
        = .ok (t, tus) :=
    fun _ => ⟨"", [⟨"t1", "bash", Json.jobj [], none⟩], by simp, rfl⟩
  obtain ⟨h1, h2⟩ := run_with_history_max_turns (fun tu => ToolResult.success tu.id "ok")
    (fun _ => ([], Except.ok (Json.jobj [("content", Json.jarr
      [Json.jobj [("type", Json.jstr "tool_use"), ("id", Json.jstr "t1"),
        ("name", Json.jstr "bash"), ("input", Json.jobj [])]])]))) 2
    [⟨"user", AgentContent.text "go"⟩] hyp
  exact ⟨hyp, by rw [h1]; rfl, h2.trans (by rfl)⟩

/-! ## Claim C2 -/

/-- The `ToolUse` ids carried by an assistant message's block list, in block
order (empty for other roles and content shapes). -/
def assistantToolUseIds (m : AgentMessage) : List String :=
  if m.role = "assistant" then
    match m.content with
    | .blocks bs => bs.filterMap (fun b => match b with
        | .toolUse id _ _ _ => some id
        | _ => none)
    | _ => []
  else []

/-- The matching discipline between an assistant message `a` carrying tool
uses and the message `u` that follows it: `u` is a user message whose content
is a tool-result list whose `tool_use_id`s are exactly `a`'s tool-use ids in
the same order, each id matched by exactly one result. -/
def pairGood (a u : AgentMessage) : Prop :=
  u.role = "user" ∧ ∃ rs, u.content = .toolResults rs ∧
    rs.map ToolResult.tool_use_id = assistantToolUseIds a ∧
    ∀ X ∈ assistantToolUseIds a, (rs.map ToolResult.tool_use_id).count X = 1

/-- The matching discipline over a message suffix: every assistant message
with tool uses is immediately followed by its matching tool-results message. -/
def chainGood : List AgentMessage → Prop
  | [] => True
  | m :: rest =>
      (assistantToolUseIds m = [] ∧ chainGood rest) ∨
      (assistantToolUseIds m ≠ [] ∧ match rest with
        | [] => False
        | u :: rest' => pairGood m u ∧ chainGood rest')

theorem ids_of_assistant (t : String) (tus : List ToolUse) (h : tus ≠ []) :
    assistantToolUseIds ⟨"assistant", assistantContentOf t tus⟩ = tus.map ToolUse.id := by
  have htu : tus.isEmpty = false := by
    cases tus with
    | nil => exact absurd rfl h
    | cons a l => rfl
  have hfm : ∀ l : List ToolUse,
      List.filterMap ((fun b => match b with
        | ContentBlock.toolUse id _ _ _ => some id
        | _ => none) ∘
        fun tu => ContentBlock.toolUse tu.id tu.name tu.input tu.thought_signature) l
      = l.map ToolUse.id := by
    intro l
    induction l with
    | nil => rfl
    | cons a l ih => simp [List.filterMap_cons, Function.comp, ih]
  unfold assistantToolUseIds assistantContentOf
  rw [if_pos rfl, htu]
  simp only [Bool.false_eq_true, if_false, List.filterMap_append, List.filterMap_map]
  by_cases ht : t = "" <;> simp [ht, hfm]

/-- Per-turn matching invariant of the loop: under an executor that preserves
tool-use ids (which `ToolExecutor::execute` does, claim C9) and a provider
whose tool uses carry pairwise-distinct ids within one turn, every history
returned by the loop extends the input history with a suffix obeying the
matching discipline. -/
theorem runAux_chain (exec : ToolUse → ToolResult) (llm : LlmOracle) (max_turns : Nat)
    (hexec : ∀ tu, (exec tu).tool_use_id = tu.id)
    (hnodup : ∀ msgs t tus, turnParse llm msgs = .ok (t, tus) → (tus.map ToolUse.id).Nodup) :
    ∀ (remaining turn : Nat) (messages : List AgentMessage) (hist : List AgentMessage),
      (runAux exec llm max_turns remaining turn messages).2 = .ok hist →
      ∃ ext, hist = messages ++ ext ∧ chainGood ext := by
  intro remaining
  induction remaining with
  | zero =>
      intro turn messages hist hok
      rw [runAux_zero] at hok
      refine ⟨[], ?_, trivial⟩
      simpa using (Except.ok.injEq _ _ ▸ hok).symm
  | succ r ih =>
      intro turn messages hist hok
      rcases hllm : llm messages with ⟨streamed, resp⟩
      rcases resp with e | response
      · rw [runAux_llm_error exec llm max_turns r turn messages streamed e hllm] at hok
        exact absurd hok (by simp)
      · rcases hparse : parse_response response with e | ⟨text_content, tool_uses⟩
        · rw [runAux_parse_error exec llm max_turns r turn messages streamed response e
            hllm hparse] at hok
          exact absurd hok (by simp)
        · rcases htu : tool_uses with _ | ⟨tu0, tusr⟩
          · rw [runAux_done exec llm max_turns r turn messages streamed response text_content
              hllm (htu ▸ hparse)] at hok
            refine ⟨[⟨"assistant", AgentContent.text text_content⟩], ?_, ?_⟩
            · simpa using (Except.ok.injEq _ _ ▸ hok).symm
            · exact Or.inl ⟨rfl, trivial⟩
          · rw [runAux_tools exec llm max_turns r turn messages streamed response text_content
              (tu0 :: tusr) hllm (htu ▸ hparse) (by simp)] at hok
            obtain ⟨ext', hext', hchain'⟩ := ih (turn + 1)
              (messages ++ [⟨"assistant", assistantContentOf text_content (tu0 :: tusr)⟩] ++
               [⟨"user", AgentContent.toolResults ((tu0 :: tusr).map exec)⟩]) hist hok
            have hids : assistantToolUseIds
                ⟨"assistant", assistantContentOf text_content (tu0 :: tusr)⟩
                = (tu0 :: tusr).map ToolUse.id :=
              ids_of_assistant text_content (tu0 :: tusr) (by simp)
            have hmapid : ((tu0 :: tusr).map exec).map ToolResult.tool_use_id
                = (tu0 :: tusr).map ToolUse.id := by
              rw [List.map_map]
              exact List.map_congr_left (fun tu _ => hexec tu)
            have hnd : ((tu0 :: tusr).map ToolUse.id).Nodup := by
              refine hnodup messages text_content (tu0 :: tusr) ?_
              simp only [turnParse, hllm]
              exact htu ▸ hparse
            refine ⟨⟨"assistant", assistantContentOf text_content (tu0 :: tusr)⟩ ::
              ⟨"user", AgentContent.toolResults ((tu0 :: tusr).map exec)⟩ :: ext', ?_, ?_⟩
            · rw [hext']
              simp [List.append_assoc]
            · refine Or.inr ⟨?_, ?_, hchain'⟩
              · rw [hids]; simp
              · refine ⟨rfl, (tu0 :: tusr).map exec, rfl, ?_, ?_⟩
                · rw [hmapid, hids]
                · intro X hX
                  rw [hmapid]
                  rw [hids] at hX
                  exact List.count_eq_one_of_mem hnd hX

/-- C2: in every turn where the model returns tool uses, the loop appends an
assistant message carrying those `ToolUse` blocks and, immediately after it, a
user message whose tool results match the tool-use ids one-to-one in the same
order — provided the executor preserves ids (claim C9 proves the repository's
executor does) and the ids within one turn are pairwise distinct ("matching by
id" presupposes ids identify tool uses). -/
theorem run_with_history_tool_matching (exec : ToolUse → ToolResult) (llm : LlmOracle)
    (max_turns : Nat) (messages : List AgentMessage)
    (hexec : ∀ tu, (exec tu).tool_use_id = tu.id)
    (hnodup : ∀ msgs t tus, turnParse llm msgs = .ok (t, tus) → (tus.map ToolUse.id).Nodup) :
    ∀ hist, (run_with_history exec llm max_turns messages).2 = .ok hist →
      ∃ ext, hist = messages ++ ext ∧ chainGood ext := by
  unfold run_with_history
  exact runAux_chain exec llm max_turns hexec hnodup max_turns 1 messages

/-- Witness for C2: a two-turn run (one tool turn, then a plain-text turn)
produces the history `[user, assistant(tool_use t1), user(tool_result t1),
assistant(text)]`, whose suffix satisfies the matching discipline. -/
theorem run_with_history_tool_matching_witness :
    (∀ tu : ToolUse, ((fun tu => ToolResult.success tu.id "ok") tu).tool_use_id = tu.id) ∧
    (∃ ext,
      ([⟨"user", AgentContent.text "go"⟩,
        ⟨"assistant", AgentContent.blocks [ContentBlock.toolUse "t1" "bash" (Json.jobj []) none]⟩,
        ⟨"user", AgentContent.toolResults [ToolResult.success "t1" "ok"]⟩,
        ⟨"assistant", AgentContent.text "Done"⟩] : List AgentMessage)
        = [⟨"user", AgentContent.text "go"⟩] ++ ext ∧ chainGood ext) := by
  have hexec : ∀ tu : ToolUse,
      ((fun tu => ToolResult.success tu.id "ok") tu).tool_use_id = tu.id := fun _ => rfl
  have hnodup : ∀ msgs t tus,
      turnParse (fun msgs => if msgs.length ≤ 1
        then ([], Except.ok (Json.jobj [("content", Json.jarr
          [Json.jobj [("type", Json.jstr "tool_use"), ("id", Json.jstr "t1"),
            ("name", Json.jstr "bash"), ("input", Json.jobj [])]])]))
        else ([], Except.ok (Json.jobj [("content", Json.jarr
          [Json.jobj [("type", Json.jstr "text"), ("text", Json.jstr "Done")]])]))) msgs
        = .ok (t, tus) → (tus.map ToolUse.id).Nodup := by
    intro msgs t tus h
    by_cases hl : msgs.length ≤ 1 <;>
      simp only [turnParse, hl, if_pos, if_neg, if_true, if_false, not_false_eq_true] at h
    · have h2 : tus = [(⟨"t1", "bash", Json.jobj [], none⟩ : ToolUse)] := by
        have hc := congrArg (fun x : Except String (String × List ToolUse) =>
          match x with | Except.ok p => p.2 | Except.error _ => []) h
        simpa using hc.symm
      rw [h2]
      simp
    · have h2 : tus = [] := by
        have hc := congrArg (fun x : Except String (String × List ToolUse) =>
          match x with | Except.ok p => p.2 | Except.error _ => []) h
        simpa using hc.symm
      rw [h2]
      simp
  exact ⟨hexec,
    run_with_history_tool_matching (fun tu => ToolResult.success tu.id "ok")
      (fun msgs => if msgs.length ≤ 1
        then ([], Except.ok (Json.jobj [("content", Json.jarr
          [Json.jobj [("type", Json.jstr "tool_use"), ("id", Json.jstr "t1"),
            ("name", Json.jstr "bash"), ("input", Json.jobj [])]])]))
        else ([], Except.ok (Json.jobj [("content", Json.jarr
          [Json.jobj [("type", Json.jstr "text"), ("text", Json.jstr "Done")]])]))) 5
      [⟨"user", AgentContent.text "go"⟩] hexec hnodup
      [⟨"user", AgentContent.text "go"⟩,
       ⟨"assistant", AgentContent.blocks [ContentBlock.toolUse "t1" "bash" (Json.jobj []) none]⟩,
       ⟨"user", AgentContent.toolResults [ToolResult.success "t1" "ok"]⟩,
       ⟨"assistant", AgentContent.text "Done"⟩] rfl⟩

/-! ## Claim C4 -/

/-- The `tool_calls` fragments carried by one `choices` element. -/
def choiceTCs (c : Json) : List Json :=
  match c.get "delta" with
  | some delta => ((delta.get "tool_calls").bind Json.asArr).getD []
  | none => []

/-- The `tool_calls` fragments carried by one stream event, in choice order. -/
def oaiEventTCs (e : Json) : List Json :=
  (((e.get "choices").bind Json.asArr).getD []).flatMap choiceTCs

/-- All `tool_calls` fragments of a stream, in arrival order. -/
def oaiFrags (events : List Json) : List Json := events.flatMap oaiEventTCs

/-- The fragments addressed to index slot `i`. -/
def fragsFor (i : Int) (frags : List Json) : List Json :=
  frags.filter (fun tc => tcIndex tc == i)

/-- The slot contents specified declaratively: the fragments for `i` applied
to the empty slot in arrival order. -/
def specSlot (i : Int) (frags : List Json) : OaiSlot :=
  (fragsFor i frags).foldl (fun s tc => slotUpdate tc s) ⟨"", "", ""⟩

/-- Slot indices in order of first appearance, continuing from `ks`. -/
def firstIndicesFrom (ks : List Int) (frags : List Json) : List Int :=
  frags.foldl (fun ks tc => if tcIndex tc ∈ ks then ks else ks ++ [tcIndex tc]) ks

/-- Slot indices of a stream in order of first appearance. -/
def oaiIndices (events : List Json) : List Int := firstIndicesFrom [] (oaiFrags events)

/-- The `function.arguments` string fragment of a `tool_calls` delta
(empty when absent). -/
def fragArgs (tc : Json) : String :=
  (((tc.get "function").bind (fun f => f.get "arguments")).bind Json.asStr).getD ""

/-- The `tool_use` entries of a Claude-format response value. -/
def toolCallsOf (j : Json) : List Json :=
  (((j.get "content").bind Json.asArr).getD []).filter
    (fun b => (b.get "type").bind Json.asStr == some "tool_use")

/-- A pure finish chunk: one choice carrying only `finish_reason`. -/
def finishEvent (r : String) : Json :=
  Json.jobj [("choices", Json.jarr [Json.jobj [("finish_reason", Json.jstr r)]])]

/-- A choice without `finish_reason`. -/
def noFinishChoice (c : Json) : Prop := ((c.get "finish_reason").bind Json.asStr).isSome = false

/-- An event none of whose choices carries `finish_reason`. -/
def noFinishEvent (e : Json) : Prop :=
  ∀ c ∈ (((e.get "choices").bind Json.asArr).getD []), noFinishChoice c

/-- A stream segment without any `finish_reason`. -/
def noFinish (events : List Json) : Prop := ∀ e ∈ events, noFinishEvent e

/-- A stream chunk carrying a single `tool_calls` delta fragment. -/
def oaiFragEvent (tc : Json) : Json :=
  Json.jobj [("choices", Json.jarr [Json.jobj
    [("delta", Json.jobj [("tool_calls", Json.jarr [tc])])]])]

/-- A concrete two-chunk stream: index 0 receives an id and name in the first
chunk and its `arguments` string split across both chunks. -/
def oaiWitnessBody : List Json :=
  [oaiFragEvent (Json.jobj [("index", Json.jnum 0), ("id", Json.jstr "call_a"),
      ("function", Json.jobj [("name", Json.jstr "fa"), ("arguments", Json.jstr "ar")])]),
   oaiFragEvent (Json.jobj [("index", Json.jnum 0),
      ("function", Json.jobj [("arguments", Json.jstr "gs")])])]

/-- A concrete stream populating two index slots, 0 then 1. -/
def oaiOrderBody : List Json :=
  [oaiFragEvent (Json.jobj [("index", Json.jnum 0), ("id", Json.jstr "a"),
      ("function", Json.jobj [("name", Json.jstr "fa"), ("arguments", Json.jstr "")])]),
   oaiFragEvent (Json.jobj [("index", Json.jnum 1), ("id", Json.jstr "b"),
      ("function", Json.jobj [("name", Json.jstr "fb"), ("arguments", Json.jstr "")])])]

/-- The `id` strings of the `tool_use` entries of a Claude-format response. -/
def toolCallIds (j : Json) : List String :=
  (toolCallsOf j).filterMap (fun b => (b.get "id").bind Json.asStr)

theorem slotsGet_upsert_self (sl : List (Int × OaiSlot)) (i : Int) (tc : Json) :
    slotsGet (slotsUpsert sl i tc) i
      = some (slotUpdate tc ((slotsGet sl i).getD ⟨"", "", ""⟩)) := by
  induction sl with
  | nil => simp [slotsUpsert, slotsGet]
  | cons p rest ih =>
      rcases p with ⟨k, s⟩
      by_cases hk : k = i
      · subst hk
        simp [slotsUpsert, slotsGet]
      · simp [slotsUpsert, slotsGet, hk, ih]

theorem slotsGet_upsert_other (sl : List (Int × OaiSlot)) (i j : Int) (tc : Json)
    (h : j ≠ i) : slotsGet (slotsUpsert sl i tc) j = slotsGet sl j := by
  induction sl with
  | nil =>
      simp [slotsUpsert, slotsGet]
      exact fun hh => h hh.symm
  | cons p rest ih =>
      rcases p with ⟨k, s⟩
      by_cases hk : k = i
      · subst hk
        have hne : ¬ (k = j) := fun hh => h hh.symm
        simp [slotsUpsert, slotsGet, hne]
      · simp [slotsUpsert, slotsGet, hk, ih]

theorem keys_upsert (sl : List (Int × OaiSlot)) (i : Int) (tc : Json) :
    (slotsUpsert sl i tc).map Prod.fst
      = if i ∈ sl.map Prod.fst then sl.map Prod.fst else sl.map Prod.fst ++ [i] := by
  induction sl with
  | nil => simp [slotsUpsert]
  | cons p rest ih =>
      rcases p with ⟨k, s⟩
      by_cases hk : k = i
      · subst hk
        simp [slotsUpsert]
      · simp only [slotsUpsert, if_neg hk, List.map_cons]
        rw [ih]
        have hik : ¬ (i = k) := fun hh => hk hh.symm
        by_cases hmem : i ∈ rest.map Prod.fst <;> simp [hmem, hik]

theorem slotsGet_foldl (frags : List Json) :
    ∀ (sl : List (Int × OaiSlot)) (i : Int),
      slotsGet (frags.foldl (fun s tc => slotsUpsert s (tcIndex tc) tc) sl) i =
        if (slotsGet sl i).isNone && (fragsFor i frags).isEmpty then none
        else some ((fragsFor i frags).foldl (fun s tc => slotUpdate tc s)
          ((slotsGet sl i).getD ⟨"", "", ""⟩)) := by
  induction frags with
  | nil =>
      intro sl i
      cases h : slotsGet sl i <;> simp [fragsFor, h]
  | cons f fs ih =>
      intro sl i
      rw [List.foldl_cons]
      rw [ih (slotsUpsert sl (tcIndex f) f) i]
      by_cases hi : tcIndex f = i
      · rw [hi, slotsGet_upsert_self]
        have hff : fragsFor i (f :: fs) = f :: fragsFor i fs := by
          simp [fragsFor, List.filter_cons, hi]
        rw [hff]
        simp
      · have hff : fragsFor i (f :: fs) = fragsFor i fs := by
          simp [fragsFor, List.filter_cons, hi]
        rw [hff, slotsGet_upsert_other sl (tcIndex f) i f (fun hh => hi hh.symm)]

theorem keys_foldl (frags : List Json) :
    ∀ sl : List (Int × OaiSlot),
      (frags.foldl (fun s tc => slotsUpsert s (tcIndex tc) tc) sl).map Prod.fst
        = firstIndicesFrom (sl.map Prod.fst) frags := by
  induction frags with
  | nil => intro sl; rfl
  | cons f fs ih =>
      intro sl
      rw [List.foldl_cons, ih (slotsUpsert sl (tcIndex f) f), keys_upsert]
      rfl

theorem foldl_flatMap {α β γ : Type} (f : γ → List α) (g : β → α → β) (l : List γ) :
    ∀ b : β, (l.flatMap f).foldl g b = l.foldl (fun b x => (f x).foldl g b) b := by
  induction l with
  | nil => intro b; rfl
  | cons x xs ih =>
      intro b
      rw [List.flatMap_cons, List.foldl_append, List.foldl_cons, ih]

theorem oaiChoiceStep_noFin (parse : String → Option Json) (iterKeys : List Int → List Int)
    (st : OaiState) (c : Json) (h : noFinishChoice c) :
    (oaiChoiceStep parse iterKeys st c).slots
      = (choiceTCs c).foldl (fun s tc => slotsUpsert s (tcIndex tc) tc) st.slots ∧
    (oaiChoiceStep parse iterKeys st c).calls = st.calls := by
  unfold noFinishChoice at h
  unfold oaiChoiceStep choiceTCs
  rw [h]
  simp only [Bool.false_eq_true, if_false]
  rcases hd : c.get "delta" with _ | delta
  · exact ⟨rfl, rfl⟩
  · rcases hc : (delta.get "content").bind Json.asStr with _ | content <;>
    rcases ht : (delta.get "tool_calls").bind Json.asArr with _ | tcs <;>
      simp [hc, ht]

theorem oaiEventStep_noFin (parse : String → Option Json) (iterKeys : List Int → List Int)
    (e : Json) (h : noFinishEvent e) :
    ∀ st : OaiState,
      (oaiEventStep parse iterKeys st e).slots
        = (oaiEventTCs e).foldl (fun s tc => slotsUpsert s (tcIndex tc) tc) st.slots ∧
      (oaiEventStep parse iterKeys st e).calls = st.calls := by
  unfold noFinishEvent at h
  unfold oaiEventStep oaiEventTCs
  rcases hc : (e.get "choices").bind Json.asArr with _ | choices
  · intro st
    simp [hc]
  · rw [hc] at h
    have key : ∀ cs : List Json, (∀ c ∈ cs, noFinishChoice c) → ∀ st : OaiState,
        (cs.foldl (oaiChoiceStep parse iterKeys) st).slots
          = cs.foldl (fun sl c => (choiceTCs c).foldl
              (fun s tc => slotsUpsert s (tcIndex tc) tc) sl) st.slots ∧
        (cs.foldl (oaiChoiceStep parse iterKeys) st).calls = st.calls := by
      intro cs
      induction cs with
      | nil => intro _ st; exact ⟨rfl, rfl⟩
      | cons c cs ih =>
          intro hcs st
          obtain ⟨hs, hca⟩ := oaiChoiceStep_noFin parse iterKeys st c
            (hcs c (List.mem_cons_self _ _))
          obtain ⟨ihs, ihc⟩ := ih (fun x hx => hcs x (List.mem_cons_of_mem _ hx))
            (oaiChoiceStep parse iterKeys st c)
          rw [List.foldl_cons, List.foldl_cons]
          exact ⟨by rw [ihs, hs], by rw [ihc, hca]⟩
    intro st
    simp only [hc, Option.getD_some]
    rw [foldl_flatMap choiceTCs]
    exact key choices (by simpa using h) st

theorem oaiRun_noFin (parse : String → Option Json) (iterKeys : List Int → List Int)
    (events : List Json) (h : noFinish events) :
    ∀ st : OaiState,
      ((events.foldl (oaiEventStep parse iterKeys) st).slots
        = (oaiFrags events).foldl (fun s tc => slotsUpsert s (tcIndex tc) tc) st.slots) ∧
      (events.foldl (oaiEventStep parse iterKeys) st).calls = st.calls := by
  induction events with
  | nil => intro st; exact ⟨rfl, rfl⟩
  | cons e es ih =>
      intro st
      obtain ⟨hs, hc⟩ := oaiEventStep_noFin parse iterKeys e (h e (List.mem_cons_self _ _)) st
      obtain ⟨ihs, ihc⟩ := ih (fun x hx => h x (List.mem_cons_of_mem _ hx))
        (oaiEventStep parse iterKeys st e)
      refine ⟨?_, by rw [List.foldl_cons, ihc, hc]⟩
      rw [List.foldl_cons, ihs, hs]
      rw [show oaiFrags (e :: es) = oaiEventTCs e ++ oaiFrags es from rfl, List.foldl_append]

theorem oaiEventStep_finish (parse : String → Option Json) (iterKeys : List Int → List Int)
    (st : OaiState) (r : String) :
    oaiEventStep parse iterKeys st (finishEvent r)
      = { st with calls := st.calls ++ oaiFinishCalls parse iterKeys st.slots } := by
  rfl

theorem slotUpdate_args (tc : Json) (s : OaiSlot) :
    (slotUpdate tc s).args = s.args ++ fragArgs tc := by
  unfold slotUpdate fragArgs
  rcases hid : (tc.get "id").bind Json.asStr with _ | id <;>
  rcases hf : tc.get "function" with _ | func
  · simp [hid, hf]
  · rcases hn : (func.get "name").bind Json.asStr with _ | name <;>
    rcases ha : (func.get "arguments").bind Json.asStr with _ | args <;>
      simp [hid, hf, hn, ha]
  · simp [hid, hf]
  · rcases hn : (func.get "name").bind Json.asStr with _ | name <;>
    rcases ha : (func.get "arguments").bind Json.asStr with _ | args <;>
      simp [hid, hf, hn, ha]

theorem string_foldl_append (l : List String) :
    ∀ a : String, l.foldl (fun r s => r ++ s) a = a ++ String.join l := by
  induction l with
  | nil => intro a; simp [String.join]
  | cons x xs ih =>
      intro a
      rw [List.foldl_cons, ih]
      rw [show String.join (x :: xs) = List.foldl (fun r s => r ++ s) ("" ++ x) xs from rfl]
      rw [ih ("" ++ x), String.empty_append, String.append_assoc]

theorem foldl_slotUpdate_args (fs : List Json) :
    ∀ s : OaiSlot, (fs.foldl (fun s tc => slotUpdate tc s) s).args
      = s.args ++ String.join (fs.map fragArgs) := by
  induction fs with
  | nil => intro s; simp [String.join]
  | cons f fs ih =>
      intro s
      rw [List.foldl_cons, ih, slotUpdate_args]
      have h1 : String.join ((f :: fs).map fragArgs)
          = fragArgs f ++ String.join (fs.map fragArgs) := by
        rw [List.map_cons]
        rw [show String.join (fragArgs f :: fs.map fragArgs)
            = (fs.map fragArgs).foldl (fun r s => r ++ s) ("" ++ fragArgs f) from rfl]
        rw [string_foldl_append, String.empty_append]
      rw [h1, String.append_assoc]

theorem mem_oaiFinishCalls {parse : String → Option Json} {iterKeys : List Int → List Int}
    {slots : List (Int × OaiSlot)} {b : Json}
    (h : b ∈ oaiFinishCalls parse iterKeys slots) : ∃ s, b = oaiToolUseJson parse s := by
  unfold oaiFinishCalls at h
  rcases List.mem_filterMap.mp h with ⟨k, -, hk⟩
  revert hk
  cases slotsGet slots k with
  | none => intro hk; cases hk
  | some s =>
      intro hk
      have hk2 : (if (decide (s.id ≠ "") && decide (s.name ≠ "")) = true
          then some (oaiToolUseJson parse s) else none) = some b := hk
      by_cases hcond : (decide (s.id ≠ "") && decide (s.name ≠ "")) = true
      · rw [if_pos hcond] at hk2
        exact ⟨s, (Option.some.inj hk2).symm⟩
      · rw [if_neg hcond] at hk2
        cases hk2

/-- C4 (amended): for an OpenAI stream whose `tool_calls` fragments arrive
across many deltas and whose single `finish_reason` chunk arrives last, the
handler surfaces one `ToolUse` per index slot having a non-empty id and name,
with that slot's `function.arguments` fragments concatenated in arrival order;
the surfaced list is ordered by the `HashMap`'s unspecified value-iteration
order (modelled by the `iterKeys` oracle, constrained only to a permutation of
the key set) over the slots in first-appearance order — a permutation of the
slots, not necessarily ascending index order. -/
theorem handle_openai_stream_tool_calls (parse : String → Option Json)
    (iterKeys : List Int → List Int) (body : List Json) (r : String)
    (hperm : ∀ ks : List Int, (iterKeys ks).Perm ks) (hnf : noFinish body) :
    (toolCallsOf (handle_openai_stream_response parse iterKeys (body ++ [finishEvent r])).2
      = (iterKeys (oaiIndices body)).filterMap (fun i =>
          if (specSlot i (oaiFrags body)).id ≠ "" && (specSlot i (oaiFrags body)).name ≠ ""
          then some (oaiToolUseJson parse (specSlot i (oaiFrags body))) else none)) ∧
    (toolCallsOf (handle_openai_stream_response parse iterKeys (body ++ [finishEvent r])).2).Perm
      ((oaiIndices body).filterMap (fun i =>
          if (specSlot i (oaiFrags body)).id ≠ "" && (specSlot i (oaiFrags body)).name ≠ ""
          then some (oaiToolUseJson parse (specSlot i (oaiFrags body))) else none)) ∧
    (∀ i : Int, (specSlot i (oaiFrags body)).args
      = String.join ((fragsFor i (oaiFrags body)).map fragArgs)) := by
  obtain ⟨hslots, hcalls⟩ := oaiRun_noFin parse iterKeys body hnf ⟨"", [], [], []⟩
  have hsplit : oaiRun parse iterKeys (body ++ [finishEvent r])
      = { oaiRun parse iterKeys body with
          calls := (oaiRun parse iterKeys body).calls ++
            oaiFinishCalls parse iterKeys (oaiRun parse iterKeys body).slots } := by
    unfold oaiRun
    rw [List.foldl_append]
    exact oaiEventStep_finish parse iterKeys _ r
  have hkeys : (oaiRun parse iterKeys body).slots.map Prod.fst = oaiIndices body := by
    rw [show (oaiRun parse iterKeys body).slots
        = (body.foldl (oaiEventStep parse iterKeys) ⟨"", [], [], []⟩).slots from rfl]
    rw [hslots, keys_foldl]
    rfl
  have hget : ∀ i, slotsGet (oaiRun parse iterKeys body).slots i
      = if (fragsFor i (oaiFrags body)).isEmpty then none
        else some (specSlot i (oaiFrags body)) := by
    intro i
    rw [show (oaiRun parse iterKeys body).slots
        = (body.foldl (oaiEventStep parse iterKeys) ⟨"", [], [], []⟩).slots from rfl]
    rw [hslots, slotsGet_foldl]
    rfl
  have hC : oaiFinishCalls parse iterKeys (oaiRun parse iterKeys body).slots
      = (iterKeys (oaiIndices body)).filterMap (fun i =>
          if (specSlot i (oaiFrags body)).id ≠ "" && (specSlot i (oaiFrags body)).name ≠ ""
          then some (oaiToolUseJson parse (specSlot i (oaiFrags body))) else none) := by
    unfold oaiFinishCalls
    rw [hkeys]
    congr 1
    funext i
    rw [hget i]
    by_cases he : (fragsFor i (oaiFrags body)).isEmpty
    · rw [if_pos he]
      have hfe : fragsFor i (oaiFrags body) = [] := by
        cases hx : fragsFor i (oaiFrags body) with
        | nil => rfl
        | cons a l => rw [hx] at he; exact absurd he (by simp)
      have hss : specSlot i (oaiFrags body) = ⟨"", "", ""⟩ := by
        unfold specSlot
        rw [hfe]
        rfl
      rw [hss]
      simp
    · rw [if_neg he]
  have hmain : toolCallsOf
      (handle_openai_stream_response parse iterKeys (body ++ [finishEvent r])).2
      = oaiFinishCalls parse iterKeys (oaiRun parse iterKeys body).slots := by
    have hcalls2 : (oaiRun parse iterKeys body).calls = [] := hcalls
    unfold handle_openai_stream_response toolCallsOf
    rw [hsplit]
    rw [hcalls2]
    simp only [List.nil_append]
    rw [show ((Json.jobj [("content", Json.jarr
        ((if (oaiRun parse iterKeys body).accText = "" then []
          else [Json.jobj [("type", Json.jstr "text"),
            ("text", Json.jstr (oaiRun parse iterKeys body).accText)]]) ++
          oaiFinishCalls parse iterKeys (oaiRun parse iterKeys body).slots))]).get
        "content").bind Json.asArr
        = some ((if (oaiRun parse iterKeys body).accText = "" then []
          else [Json.jobj [("type", Json.jstr "text"),
            ("text", Json.jstr (oaiRun parse iterKeys body).accText)]]) ++
          oaiFinishCalls parse iterKeys (oaiRun parse iterKeys body).slots) from rfl]
    simp only [Option.getD_some, List.filter_append]
    rw [show List.filter (fun b => (b.get "type").bind Json.asStr == some "tool_use")
        (if (oaiRun parse iterKeys body).accText = "" then []
         else [Json.jobj [("type", Json.jstr "text"),
           ("text", Json.jstr (oaiRun parse iterKeys body).accText)]]) = [] from by
      by_cases ht : (oaiRun parse iterKeys body).accText = ""
      · rw [if_pos ht]; rfl
      · rw [if_neg ht]; rfl]
    rw [List.nil_append]
    rw [List.filter_eq_self.mpr]
    intro b hb
    obtain ⟨s, rfl⟩ := mem_oaiFinishCalls hb
    rfl
  refine ⟨hmain.trans hC, ?_, ?_⟩
  · rw [hmain.trans hC]
    exact List.Perm.filterMap _ (hperm (oaiIndices body))
  · intro i
    unfold specSlot
    rw [foldl_slotUpdate_args]
    rfl

/-- Witness for C4 at a concrete two-chunk stream: identity iteration order is
a permutation, the body carries no `finish_reason`, and the single slot's
argument fragments `"ar"`, `"gs"` concatenate to `"args"`. -/
theorem handle_openai_stream_tool_calls_witness :
    ((∀ ks : List Int, ((fun ks : List Int => ks) ks).Perm ks) ∧
     noFinish oaiWitnessBody ∧
     ((toolCallsOf (handle_openai_stream_response (fun _ => none) (fun ks => ks)
         (oaiWitnessBody ++ [finishEvent "tool_calls"])).2
       = ((fun ks : List Int => ks) (oaiIndices oaiWitnessBody)).filterMap (fun i =>
           if (specSlot i (oaiFrags oaiWitnessBody)).id ≠ "" &&
              (specSlot i (oaiFrags oaiWitnessBody)).name ≠ ""
           then some (oaiToolUseJson (fun _ => none) (specSlot i (oaiFrags oaiWitnessBody)))
           else none)) ∧
      (toolCallsOf (handle_openai_stream_response (fun _ => none) (fun ks => ks)
         (oaiWitnessBody ++ [finishEvent "tool_calls"])).2).Perm
        ((oaiIndices oaiWitnessBody).filterMap (fun i =>
           if (specSlot i (oaiFrags oaiWitnessBody)).id ≠ "" &&
              (specSlot i (oaiFrags oaiWitnessBody)).name ≠ ""
           then some (oaiToolUseJson (fun _ => none) (specSlot i (oaiFrags oaiWitnessBody)))
           else none)) ∧
      (∀ i : Int, (specSlot i (oaiFrags oaiWitnessBody)).args
        = String.join ((fragsFor i (oaiFrags oaiWitnessBody)).map fragArgs)))) ∧
    (specSlot 0 (oaiFrags oaiWitnessBody)).args = "args" ∧
    toolCallIds (handle_openai_stream_response (fun _ => none) (fun ks => ks)
        (oaiWitnessBody ++ [finishEvent "tool_calls"])).2 = ["call_a"] :=
  ⟨⟨fun ks => List.Perm.refl ks,
    by unfold noFinish noFinishEvent noFinishChoice; decide,
    handle_openai_stream_tool_calls (fun _ => none) (fun ks => ks) oaiWitnessBody "tool_calls"
      (fun ks => List.Perm.refl ks)
      (by unfold noFinish noFinishEvent noFinishChoice; decide)⟩,
   by decide, by decide⟩

/-- C4 counterexample to the claimed ascending-index ordering: with reversal
as the map's value-iteration order — a legitimate permutation of the key set —
the two finished slots surface with ids `["b", "a"]`, not the index order
`["a", "b"]`. -/
theorem openai_tool_order_counterexample :
    (∀ ks : List Int, ks.reverse.Perm ks) ∧
    toolCallIds (handle_openai_stream_response (fun _ => none) List.reverse
        (oaiOrderBody ++ [finishEvent "tool_calls"])).2 = ["b", "a"] ∧
    (["b", "a"] : List String) ≠ ["a", "b"] :=
  ⟨fun ks => List.reverse_perm ks, by decide, by decide⟩

/-- A concrete request for the Google signature echo: an assistant `tool_use`
with id `t1` and `thought_signature` `sg`, answered by a `tool_result`. -/
def googleEchoRequest : ClaudeApiRequest where
  model := "gemini-2.0-flash"
  max_tokens := 100
  system := ""
  messages :=
    [⟨"assistant", .blocks [Json.jobj [("type", Json.jstr "tool_use"),
        ("id", Json.jstr "t1"), ("name", Json.jstr "f"), ("input", Json.jobj []),
        ("thought_signature", Json.jstr "sg")]]⟩,
     ⟨"user", .blocks [Json.jobj [("type", Json.jstr "tool_result"),
        ("tool_use_id", Json.jstr "t1"), ("content", Json.jstr "ok")]]⟩]
  tools := []
  temperature := none
  stream := true

theorem sigGet_sigInsert_self (m : List (String × String)) (k v : String) :
    sigGet (sigInsert m k v) k = some v := by
  induction m with
  | nil => simp [sigInsert, sigGet]
  | cons p rest ih =>
      rcases p with ⟨k', v'⟩
      by_cases h : k' = k
      · subst h; simp [sigInsert, sigGet]
      · simp [sigInsert, sigGet, h, Ne.symm h, ih]

theorem sigGet_sigInsert_other (m : List (String × String)) (k v key : String)
    (h : key ≠ k) : sigGet (sigInsert m k v) key = sigGet m key := by
  induction m with
  | nil => simp [sigInsert, sigGet, h]
  | cons p rest ih =>
      rcases p with ⟨k', v'⟩
      by_cases h2 : k' = k
      · subst h2; simp [sigInsert, sigGet, h]
      · simp [sigInsert, sigGet, h2, ih]

theorem sigGet_foldl_absent (l : List (String × String)) (m : List (String × String))
    (X : String) (h : ∀ q ∈ l, q.1 ≠ X) :
    sigGet (l.foldl (fun m p => sigInsert m p.1 p.2) m) X = sigGet m X := by
  induction l generalizing m with
  | nil => rfl
  | cons p rest ih =>
      rw [List.foldl_cons]
      rw [ih _ (fun q hq => h q (List.mem_cons_of_mem p hq))]
      exact sigGet_sigInsert_other m p.1 p.2 X (Ne.symm (h p (List.mem_cons_self p rest)))

theorem sigGet_foldl_unique (l : List (String × String)) (m : List (String × String))
    (X S : String) (h : l.filter (fun p => p.1 == X) = [(X, S)]) :
    sigGet (l.foldl (fun m p => sigInsert m p.1 p.2) m) X = some S := by
  induction l generalizing m with
  | nil => cases h
  | cons p rest ih =>
      rw [List.foldl_cons]
      by_cases hp : (p.1 == X) = true
      · simp only [List.filter_cons, hp, if_true] at h
        injection h with h1 h2
        have hrest : ∀ q ∈ rest, q.1 ≠ X := by
          intro q hq
          have := List.filter_eq_nil_iff.mp h2 q hq
          simpa using this
        rw [sigGet_foldl_absent rest _ X hrest, h1]
        exact sigGet_sigInsert_self m X S
      · simp only [List.filter_cons, hp, if_false] at h
        exact ih _ h

/-- C6: with the request's `tool_use` blocks binding id `X` to the single
signature `S`, the Google serializer (a) turns every `tool_use` block of the
request carrying id `X` and a `thought_signature` into a `functionCall` part
whose `thoughtSignature` is exactly `S`, (b) turns every `tool_result` block
whose `tool_use_id` is `X` into a `functionResponse` part also carrying
`thoughtSignature = S`, and (c) assembles `contents` from exactly these parts
under the harvested signature map. -/
theorem google_thought_signature_echo (request : ClaudeApiRequest) (X S : String)
    (hX : (thoughtSigPairs request.messages).filter (fun p => p.1 == X) = [(X, S)]) :
    (∀ msg ∈ request.messages, ∀ blocks, msg.content = .blocks blocks →
      ∀ b ∈ blocks, (b.get "type").bind Json.asStr = some "tool_use" →
        (b.get "id").bind Json.asStr = some X →
        ∀ sg, (b.get "thought_signature").bind Json.asStr = some sg →
        sg = S ∧
        googleBlockPart (sigMapOf request.messages) b
          = some ((Json.jobj [("functionCall", Json.jobj
              [("name", (b.get "name").getD Json.null),
               ("args", (b.get "input").getD Json.null)])]).setKey
              "thoughtSignature" (Json.jstr S)) ∧
        ((Json.jobj [("functionCall", Json.jobj
              [("name", (b.get "name").getD Json.null),
               ("args", (b.get "input").getD Json.null)])]).setKey
              "thoughtSignature" (Json.jstr S)).get "thoughtSignature"
          = some (Json.jstr S)) ∧
    (∀ b : Json, (b.get "type").bind Json.asStr = some "tool_result" →
      (b.get "tool_use_id").bind Json.asStr = some X →
      googleBlockPart (sigMapOf request.messages) b
        = some ((Json.jobj [("functionResponse", Json.jobj
            [("name", Json.jstr X),
             ("response", Json.jobj [("content", (b.get "content").getD Json.null)])])]).setKey
            "thoughtSignature" (Json.jstr S)) ∧
      ((Json.jobj [("functionResponse", Json.jobj
            [("name", Json.jstr X),
             ("response", Json.jobj [("content", (b.get "content").getD Json.null)])])]).setKey
            "thoughtSignature" (Json.jstr S)).get "thoughtSignature"
        = some (Json.jstr S)) ∧
    ((convert_to_google_format request).get "contents"
      = some (Json.jarr (request.messages.filterMap (fun msg =>
          if (googleMsgParts (sigMapOf request.messages) msg.content).isEmpty then none
          else some (Json.jobj
            [("role", Json.jstr (if msg.role = "assistant" then "model" else msg.role)),
             ("parts", Json.jarr (googleMsgParts (sigMapOf request.messages)
               msg.content))]))))) := by
  have hsig : sigGet (sigMapOf request.messages) X = some S :=
    sigGet_foldl_unique (thoughtSigPairs request.messages) [] X S hX
  refine ⟨?_, ?_, ?_⟩
  · intro msg hmsg blocks hblocks b hb htype hid sg hsg
    have hpair : (X, sg) ∈ thoughtSigPairs request.messages := by
      unfold thoughtSigPairs
      refine List.mem_flatMap.mpr ⟨msg, hmsg, ?_⟩
      rw [hblocks]
      refine List.mem_filterMap.mpr ⟨b, hb, ?_⟩
      simp [htype, hid, hsg]
    have hmemf : (X, sg) ∈ (thoughtSigPairs request.messages).filter
        (fun p => p.1 == X) := List.mem_filter.mpr ⟨hpair, by simp⟩
    rw [hX] at hmemf
    have hsgS : sg = S := by
      have := List.mem_singleton.mp hmemf
      exact congrArg Prod.snd this
    subst hsgS
    refine ⟨rfl, ?_, ?_⟩
    · unfold googleBlockPart
      rw [htype]
      simp only [Option.getD_some]
      rw [if_neg (by decide : ¬("tool_use" : String) = "text")]
      first
      | rw [if_pos rfl]
      | rw [if_pos trivial]
      rw [hsg]
    · rw [get_setKey_jobj]
      rw [if_pos rfl]
  · intro b htype hid
    refine ⟨?_, ?_⟩
    · unfold googleBlockPart
      rw [htype]
      simp only [Option.getD_some]
      rw [if_neg (by decide : ¬("tool_result" : String) = "text")]
      rw [if_neg (by decide : ¬("tool_result" : String) = "tool_use")]
      first
      | rw [if_pos rfl]
      | rw [if_pos trivial]
      rw [hid]
      simp only [Option.getD_some]
      rw [hsig]
    · rw [get_setKey_jobj]
      rw [if_pos rfl]
  · unfold convert_to_google_format
    by_cases hsys : request.system = "" <;>
      by_cases hf : (request.tools.map (fun tool =>
          Json.jobj [("name", Json.jstr tool.name),
            ("description", Json.jstr tool.description),
            ("parameters", tool.input_schema)])).isEmpty <;>
      simp [hsys, hf, Json.setKey, Json.get, lookupField_upsert, lookupField]

/-- Witness for C6 at `googleEchoRequest`: id `t1` is bound to the single
signature `sg`, the `tool_use` block yields a `functionCall` part stamped with
`sg`, and the matching `tool_result` yields a `functionResponse` part stamped
with the same `sg`. -/
theorem google_thought_signature_echo_witness :
    ((thoughtSigPairs googleEchoRequest.messages).filter (fun p => p.1 == "t1")
      = [("t1", "sg")]) ∧
    googleBlockPart (sigMapOf googleEchoRequest.messages)
        (Json.jobj [("type", Json.jstr "tool_use"), ("id", Json.jstr "t1"),
          ("name", Json.jstr "f"), ("input", Json.jobj []),
          ("thought_signature", Json.jstr "sg")])
      = some ((Json.jobj [("functionCall", Json.jobj
          [("name", Json.jstr "f"), ("args", Json.jobj [])])]).setKey
          "thoughtSignature" (Json.jstr "sg")) ∧
    googleBlockPart (sigMapOf googleEchoRequest.messages)
        (Json.jobj [("type", Json.jstr "tool_result"),
          ("tool_use_id", Json.jstr "t1"), ("content", Json.jstr "ok")])
      = some ((Json.jobj [("functionResponse", Json.jobj
          [("name", Json.jstr "t1"),
           ("response", Json.jobj [("content", Json.jstr "ok")])])]).setKey
          "thoughtSignature" (Json.jstr "sg")) := by
  have h := google_thought_signature_echo googleEchoRequest "t1" "sg" (by decide)
  refine ⟨by decide, ?_, ?_⟩
  · exact (h.1 ⟨"assistant", .blocks [Json.jobj [("type", Json.jstr "tool_use"),
        ("id", Json.jstr "t1"), ("name", Json.jstr "f"), ("input", Json.jobj []),
        ("thought_signature", Json.jstr "sg")]]⟩ (List.mem_cons_self _ _)
      [Json.jobj [("type", Json.jstr "tool_use"), ("id", Json.jstr "t1"),
        ("name", Json.jstr "f"), ("input", Json.jobj []),
        ("thought_signature", Json.jstr "sg")]] rfl
      (Json.jobj [("type", Json.jstr "tool_use"), ("id", Json.jstr "t1"),
        ("name", Json.jstr "f"), ("input", Json.jobj []),
        ("thought_signature", Json.jstr "sg")]) (List.mem_cons_self _ _)
      rfl rfl "sg" rfl).2.1
  · exact (h.2.1 (Json.jobj [("type", Json.jstr "tool_result"),
      ("tool_use_id", Json.jstr "t1"), ("content", Json.jstr "ok")]) rfl rfl).1
